import Mathlib

set_option maxRecDepth 8000

/-!
Verification of the fava-classy-portfolio core (`fava_classy_portfolio/__init__.py`):
the aggregation-tree builder with allocation percentages (`_portfolio_data`) and the
recursive rowspan-flattening pass (`insert_rowspans`).

Modelling conventions (shallow embedding):
* Python `Decimal` arithmetic is modelled by exact rationals `ℚ`; `round(x, 2)` is
  round-half-even to two decimal places (`pyRound2`).  A raised `DivisionByZero` /
  `InvalidOperation`, a `KeyError` on a dict subscript, and every other uncaught
  exception are modelled by `Option.none` of the enclosing computation.
* Python dicts are association lists in insertion order; assignment updates the
  first occurrence in place and appends fresh keys at the end (`dset`).
* External collaborators (beancount cost conversion, price map, market-value
  reduction, regex matching) are inputs carried by `NodeIn` / `Env`, per the spec's
  ValueResolver / selection-rule interfaces.
* The `str(type)` tags of the column schema are modelled by the injective
  enumeration `ColKind`; the flattener's two group tests compare tags exactly as
  the source compares the tag strings.
-/

/-- Association-list lookup: Python `d[k]` read (first occurrence). -/
def dlookup {α : Type} : List (String × α) → String → Option α
  | [], _ => none
  | (k0, v0) :: t, k => if k0 = k then some v0 else dlookup t k

/-- Association-list store: Python `d[k] = v` (update in place, else append). -/
def dset {α : Type} : List (String × α) → String → α → List (String × α)
  | [], k, v => [(k, v)]
  | (k0, v0) :: t, k, v => if k0 = k then (k0, v) :: t else (k0, v0) :: dset t k v

/-- Python `k in d`. -/
def containsKey {α : Type} (l : List (String × α)) (k : String) : Bool :=
  (dlookup l k).isSome

/-- Read-modify-write of an existing key: Python `d[k].field = ...` / `d[k] += ...`. -/
def modifyAt {α : Type} : List (String × α) → String → (α → α) → List (String × α)
  | [], _, _ => []
  | (k0, v0) :: t, k, f => if k0 = k then (k0, f v0) :: t else (k0, v0) :: modifyAt t k f

/-- Round-half-even of a rational to an integer (Python/decimal default rounding). -/
def rne (q : ℚ) : ℤ :=
  let f := ⌊q⌋
  let r := q - f
  if r < 1 / 2 then f
  else if 1 / 2 < r then f + 1
  else if f % 2 = 0 then f else f + 1

/-- Python `round(x, 2)` on a `Decimal`: quantize to two places, half-even. -/
def pyRound2 (q : ℚ) : ℚ := (rne (q * 100) : ℚ) / 100

/-- The `str(type)` tag of a schema column (`types` list in `_portfolio_data`). -/
inductive ColKind where
  | decimal
  | pydict
  | decimalPercent
  | accountsDict
  | decimalIncomeGainLoss
  | decimalPercentGainLoss
  | pydate
deriving DecidableEq, BEq

/-- One `(column name, str(type))` pair of the schema. -/
structure Col where
  name : String
  kind : ColKind
deriving DecidableEq

/-- `coltype[1] == "<class 'dict'>"` — the only group test on the `isStart` path. -/
def isGroupTop (c : Col) : Bool :=
  match c.kind with
  | ColKind.pydict => true
  | _ => false

/-- `coltype[1] == "<class 'dict'>" or coltype[1] == "<class 'fava_classy_portfolio.AccountsDict'>"`
— the group test on the recursive (non-start) path. -/
def isGroupInner (c : Col) : Bool :=
  match c.kind with
  | ColKind.pydict => true
  | ColKind.accountsDict => true
  | _ => false

/-- A Python value inside the portfolio tree / flattened table:
`num` a Decimal, `null` is `None`, `date` a `datetime.date`,
`dict` a dict in insertion order, `cell v n` the pair `(v, {"rowspan": n})`. -/
inductive Val where
  | num : ℚ → Val
  | null : Val
  | date : Nat → Val
  | dict : List (String × Val) → Val
  | cell : Val → Nat → Val

/-- Split the column list at the first inner-group column: returns the scalar
prefix and, if present, the group column with the columns after it
(`coltypes[(colcount + 1):]`). -/
def splitCols : List Col → List Col × Option (Col × List Col)
  | [] => ([], none)
  | c :: t =>
    if isGroupInner c then ([], some (c, t))
    else
      match splitCols t with
      | (p, r) => (c :: p, r)

/-- Same split with the `isStart` group test (plain `dict` only). -/
def splitColsTop : List Col → List Col × Option (Col × List Col)
  | [] => ([], none)
  | c :: t =>
    if isGroupTop c then ([], some (c, t))
    else
      match splitColsTop t with
      | (p, r) => (c :: p, r)

/-- The columns after the first group column form a strictly shorter list
(termination measure of the recursive flattening pass). -/
def splitCols_rest_lt : ∀ (l p : List Col) (g : Col) (rest : List Col),
    splitCols l = (p, some (g, rest)) → rest.length < l.length := by
  intro l
  induction l with
  | nil => intro p g rest hh; simp [splitCols] at hh
  | cons c0 t ih =>
    intro p g rest hh
    cases hg : isGroupInner c0 with
    | true =>
      simp only [splitCols, hg, if_true] at hh
      have h2 := congrArg Prod.snd hh
      simp only [Option.some.injEq, Prod.mk.injEq] at h2
      obtain ⟨-, h3⟩ := h2
      subst h3
      simp only [List.length_cons]
      omega
    | false =>
      simp only [splitCols, hg, Bool.false_eq_true, if_false] at hh
      cases hsp : splitCols t with
      | mk p2 r2 =>
        rw [hsp] at hh
        simp only [Prod.mk.injEq] at hh
        obtain ⟨-, h2⟩ := hh
        have h3 := ih p2 g rest (by rw [hsp, h2])
        simp only [List.length_cons]
        omega

/-- Scalar placeholders: `new_data[key][0][col] = (data[key][col], {"rowspan": 1})`
for each scalar column in order, mutating the row; `KeyError` is `none`. -/
def wrapScalars : List Col → List (String × Val) → Option (List (String × Val))
  | [], row => some row
  | c :: t, row =>
    match dlookup row c.name with
    | some v => wrapScalars t (dset row c.name (Val.cell v 1))
    | none => none

/-- Back-propagation: `new_data[key][0][coltypes[i][0]] =
(new_data[key][0][coltypes[i][0]][0], {"rowspan": rowsum})` for every earlier column. -/
def backprop : List Col → List (String × Val) → Nat → Option (List (String × Val))
  | [], row, _ => some row
  | c :: t, row, n =>
    match dlookup row c.name with
    | some (Val.cell v _) => backprop t (dset row c.name (Val.cell v n)) n
    | _ => none

/-- `rowsum`: sum of `value[1]["rowspan"]` over the values of a recursive result. -/
def spanSum (l : List (String × Val × Nat)) : Nat :=
  (l.map (fun e => e.2.2)).sum

/-- Re-embed a recursive result as the dict of `(row, {"rowspan": n})` pairs. -/
def dictOfInner (l : List (String × Val × Nat)) : Val :=
  Val.dict (l.map (fun e => (e.1, Val.cell e.2.1 e.2.2)))

/-- `insert_rowspans(data, coltypes, False)`: process every key of the mapping.
Per key: wrap the scalar columns before the first group column with span 1,
recurse into the group column's mapping with the remaining schema, back-propagate
`rowsum` onto the earlier scalar columns, and pair the (mutated) row with
`rowsum`; with no group column left the row's span is 1.  The result entry
`(k, r, n)` stands for `new_data[k] = (r, {"rowspan": n})`; `r` is the same dict
object as `data[k]` after mutation. -/
def flattenDict : (cs : List Col) → List (String × Val) → Option (List (String × Val × Nat))
  | _, [] => some []
  | cs, (k, v) :: t =>
    let entry : Option (Val × Nat) :=
      match cs, v with
      | [], v => some (v, 1)
      | c2 :: cs2, Val.dict row =>
        match h : splitCols (c2 :: cs2) with
        | (pre, none) =>
          match wrapScalars pre row with
          | some r => some (Val.dict r, 1)
          | none => none
        | (pre, some (g, rest)) =>
          match wrapScalars pre row with
          | some row0 =>
            match dlookup row0 g.name with
            | some (Val.dict sub) =>
              match flattenDict rest sub with
              | some inner =>
                match backprop pre (dset row0 g.name (dictOfInner inner)) (spanSum inner) with
                | some row2 => some (Val.dict row2, spanSum inner)
                | none => none
              | none => none
            | _ => none
          | none => none
      | _ :: _, _ => none
    match entry with
    | some (r, n) =>
      match flattenDict cs t with
      | some rest2 => some ((k, r, n) :: rest2)
      | none => none
    | none => none
termination_by cs l => (cs.length, l.length)
decreasing_by
  · apply Prod.Lex.left
    exact splitCols_rest_lt _ _ _ _ h
  · apply Prod.Lex.right
    simp

/-- Scalar columns of the `isStart` pass: `new_data[col] = (data[col], {"rowspan": 1})`,
reading from `data` and writing to the fresh `new_data` accumulator. -/
def wrapTop : List Col → List (String × Val) → List (String × Val) → Option (List (String × Val))
  | [], _, acc => some acc
  | c :: t, data, acc =>
    match dlookup data c.name with
    | some v => wrapTop t data (dset acc c.name (Val.cell v 1))
    | none => none

/-- `insert_rowspans(data, coltypes, True)`: wrap the scalar columns before the
first `dict` column, recurse into that column's mapping with the remaining
schema, append the result, and back-propagate `rowsum` onto the earlier columns;
later columns are never reached (`break`). -/
def insertRowspansStart (data : List (String × Val)) (coltypes : List Col) :
    Option (List (String × Val)) :=
  match splitColsTop coltypes with
  | (pre, none) => wrapTop pre data []
  | (pre, some (g, rest)) =>
    match wrapTop pre data [] with
    | some acc =>
      match dlookup data g.name with
      | some (Val.dict entries) =>
        match flattenDict rest entries with
        | some inner => backprop pre (dset acc g.name (dictOfInner inner)) (spanSum inner)
        | none => none
      | _ => none
    | none => none

/-- `insert_rowspans(data, coltypes, isStart)`; the `False` branch returns the dict
of `(row, {"rowspan": n})` tuples. -/
def insert_rowspans (data : List (String × Val)) (coltypes : List Col) (isStart : Bool) :
    Option (List (String × Val)) :=
  if isStart then insertRowspansStart data coltypes
  else (flattenDict coltypes data).map (fun l => l.map (fun e => (e.1, Val.cell e.2.1 e.2.2)))

mutual

/-- Leaf-row count of one subtree value under a schema suffix: scan to the first
group column; with none left the value is a single physical table row, otherwise
the count is the total over the keys of that group column's mapping. -/
def rowLeavesV : (cs : List Col) → Val → Nat
  | [], _ => 1
  | c :: cs, v =>
    if isGroupInner c then rowGroupLeaves cs c v
    else rowLeavesV cs v
termination_by cs _ => (cs.length, 0, 0)
decreasing_by
  · apply Prod.Lex.left
    simp only [List.length_cons]
    omega
  · apply Prod.Lex.left
    simp only [List.length_cons]
    omega

/-- Leaf-row count through one group column: the total over the keys of its
mapping (degenerate shapes count as one row). -/
def rowGroupLeaves : (cs : List Col) → Col → Val → Nat
  | cs, c, Val.dict row =>
    (match dlookup row c.name with
     | some (Val.dict sub) => rowLeavesList cs sub
     | _ => 1)
  | _, _, _ => 1
termination_by cs _ _ => (cs.length, 2, 0)
decreasing_by
  apply Prod.Lex.right
  apply Prod.Lex.left
  omega

/-- Total leaf-row count over the keys of a group mapping. -/
def rowLeavesList : (cs : List Col) → List (String × Val) → Nat
  | _, [] => 0
  | cs, e :: t => rowLeavesV cs e.2 + rowLeavesList cs t
termination_by cs l => (cs.length, 1, l.length)
decreasing_by
  · apply Prod.Lex.right
    apply Prod.Lex.left
    omega
  · apply Prod.Lex.right
    apply Prod.Lex.right
    simp only [List.length_cons]
    omega

end

mutual

/-- Every rowspan annotation in a flattened value is 1. -/
def allSpansOneV : Val → Bool
  | Val.num _ => true
  | Val.null => true
  | Val.date _ => true
  | Val.dict l => allSpansOneL l
  | Val.cell v n => n == 1 && allSpansOneV v

/-- Every rowspan annotation in a flattened mapping is 1. -/
def allSpansOneL : List (String × Val) → Bool
  | [] => true
  | e :: t => allSpansOneV e.2 && allSpansOneL t

end

/-- Forget the span annotations of a recursive flattening result: each key's row
object, which is the input row after in-place mutation. -/
def stripSpans (l : List (String × Val × Nat)) : List (String × Val) :=
  l.map (fun e => (e.1, e.2.1))

/-- Post-state of the mapping passed to `insert_rowspans(..., False)`: the code
aliases each input row (`new_data[key] = (data[key], ...)`) and then writes all
column updates through `new_data[key][0]`, so after the call each key of the
input maps to its flattened row. -/
def flattenDictPost (cs : List Col) (data : List (String × Val)) :
    Option (List (String × Val)) :=
  (flattenDict cs data).map stripSpans

/-- Post-state of the `isStart` input: the top-level dict is only read
(placeholders are written into the fresh `new_data`), but the first group
column's nested mapping is passed to the recursive pass and mutated in place. -/
def insertRowspansStartPost (data : List (String × Val)) (coltypes : List Col) :
    Option (List (String × Val)) :=
  match splitColsTop coltypes with
  | (pre, none) => (wrapTop pre data []).map (fun _ => data)
  | (pre, some (g, rest)) =>
    match wrapTop pre data [] with
    | some acc =>
      match dlookup data g.name with
      | some (Val.dict entries) =>
        match flattenDict rest entries with
        | some inner =>
          match backprop pre (dset acc g.name (dictOfInner inner)) (spanSum inner) with
          | some _ => some (dset data g.name (Val.dict (stripSpans inner)))
          | none => none
        | none => none
      | _ => none
    | none => none

/-- Commodity metadata: the optional `asset-class` / `asset-subclass` entries of a
`Commodity` directive's `meta` dict. -/
structure CommodityEntry where
  assetClass : Option String
  assetSubclass : Option String
deriving DecidableEq

/-- One account tree node together with the values the external collaborators
(beancount cost conversion, price map, market-value reduction) return for it:
`balanceKeys` are the currencies of `node.balance`'s keys, `costCurrency` /
`costNumber` the result of `_convert_cost`, `latestPrice` the result of
`_account_latest_price` (an optional `(date, price)` with optional date), and
`marketValue` the operating-currency market value used by `_asset_info`. -/
structure NodeIn where
  name : String
  balanceKeys : List String
  costCurrency : String
  costNumber : ℚ
  latestPrice : Option (Option Nat × ℚ)
  marketValue : ℚ
deriving DecidableEq

/-- The extension's surroundings: ledger options, the commodity dict built by
`load_report`, the external regex matcher, the `Open` entries (account and meta),
and the ledger root tree (account name to node). -/
structure Env where
  operating_currency : String
  commodity_dict : List (String × CommodityEntry)
  rmatch : String → String → Bool
  open_entries : List (String × List (String × String))
  tree : List (String × NodeIn)

/-- Per-account record of `_portfolio_data` (`account_data` dict); the three
allocation fields are written by the second pass. -/
structure AccountData where
  balance_market_value : ℚ
  income_gain_loss : Option ℚ
  gain_loss_percentage : Option ℚ
  latest_price_date : Option Nat
  portfolio_allocation : ℚ := 0
  asset_class_allocation : ℚ := 0
  asset_subclass_allocation : ℚ := 0
deriving DecidableEq

/-- Subclass dict: `asset_subclass_total`, `portfolio_allocation`,
`asset_subclass_asset_class_allocation` (initialized and never updated — the
second pass writes the distinct key `asset_class_allocation` instead), and the
accounts mapping. -/
structure SubclassNode where
  asset_subclass_total : ℚ
  portfolio_allocation : ℚ
  asset_subclass_asset_class_allocation : ℚ
  accounts : List (String × AccountData)
  asset_class_allocation : ℚ := 0
deriving DecidableEq

/-- Asset-class dict: `portfolio_allocation`, `asset_class_total`, subclasses. -/
structure ClassNode where
  portfolio_allocation : ℚ
  asset_class_total : ℚ
  asset_subclasses : List (String × SubclassNode)
deriving DecidableEq

/-- The `portfolio_tree` dict: `portfolio_total` and the class mapping. -/
structure PTree where
  portfolio_total : ℚ
  asset_classes : List (String × ClassNode)
deriving DecidableEq

/-- `node_commodity`: common currency of the balance keys, `"mixed_commodities"`
if two keys differ, `""` for an empty balance. -/
def node_commodity (node : NodeIn) : String :=
  match node.balanceKeys with
  | [] => ""
  | ref_currency :: _ =>
    if node.balanceKeys.all (fun currency => currency = ref_currency) then ref_currency
    else "mixed_commodities"

/-- `commodity_dict[commodity].meta["asset-class"]` with the `"noclass"` default. -/
def asset_class_of (env : Env) (commodity : String) : String :=
  match dlookup env.commodity_dict commodity with
  | some e =>
    match e.assetClass with
    | some c => c
    | none => "noclass"
  | none => "noclass"

/-- `commodity_dict[commodity].meta["asset-subclass"]` with the `"nosubclass"` default. -/
def asset_subclass_of (env : Env) (commodity : String) : String :=
  match dlookup env.commodity_dict commodity with
  | some e =>
    match e.assetSubclass with
    | some c => c
    | none => "nosubclass"
  | none => "nosubclass"

/-- `_asset_info`: market value, unrealized gain/loss, and its percentage
`(gain * -1) / cost * 100`; a zero cost basis raises (`Decimal` division by
zero), modelled as `none`. -/
def _asset_info (node : NodeIn) : Option (ℚ × ℚ × ℚ) :=
  let account_cost := node.costNumber
  let account_balance_market_value := node.marketValue
  let account_income_gain_loss_unrealized := account_cost - account_balance_market_value
  if account_cost = 0 then none
  else
    some (account_balance_market_value, account_income_gain_loss_unrealized,
      account_income_gain_loss_unrealized * (-1) / account_cost * 100)

/-- `if asset_class not in portfolio_tree["asset_classes"]: ...` initialization. -/
def ensureClass (t : PTree) (asset_class : String) : PTree :=
  if containsKey t.asset_classes asset_class then t
  else
    { t with asset_classes := t.asset_classes ++
        [(asset_class,
          { portfolio_allocation := 0, asset_class_total := 0, asset_subclasses := [] })] }

/-- `if asset_subclass not in ...["asset_subclasses"]: ...` initialization. -/
def ensureSubclass (t : PTree) (asset_class asset_subclass : String) : PTree :=
  { t with asset_classes := modifyAt t.asset_classes asset_class (fun c =>
      if containsKey c.asset_subclasses asset_subclass then c
      else
        { c with asset_subclasses := c.asset_subclasses ++
            [(asset_subclass,
              { asset_subclass_total := 0, portfolio_allocation := 0,
                asset_subclass_asset_class_allocation := 0, accounts := [] })] }) }

/-- `...["accounts"][account_name] = account_data`. -/
def insertAccount (t : PTree) (asset_class asset_subclass account_name : String)
    (d : AccountData) : PTree :=
  { t with asset_classes := modifyAt t.asset_classes asset_class (fun c =>
      { c with asset_subclasses := modifyAt c.asset_subclasses asset_subclass (fun s =>
          { s with accounts := dset s.accounts account_name d }) }) }

/-- The three sum accumulations: `portfolio_total` only when the market value is
truthy (non-zero), the class and subclass totals unconditionally. -/
def accumulate (t : PTree) (asset_class asset_subclass : String) (mv : ℚ) : PTree :=
  let t := if mv ≠ 0 then { t with portfolio_total := t.portfolio_total + mv } else t
  let t := { t with asset_classes := modifyAt t.asset_classes asset_class (fun c =>
      { c with asset_class_total := c.asset_class_total + mv }) }
  { t with asset_classes := modifyAt t.asset_classes asset_class (fun c =>
      { c with asset_subclasses := modifyAt c.asset_subclasses asset_subclass (fun s =>
          { s with asset_subclass_total := s.asset_subclass_total + mv }) }) }

/-- Body of `_portfolio_data`'s first loop for one node: skip empty balances,
classify, lazily create tree nodes, then value the account: cost in the
operating currency and a known price uses `_asset_info`; cost in the operating
currency without a price keeps the cost as market value with null gain/loss; a
cost in any other currency appends the warning and contributes nothing
(the `len == 0` branch mirrors the source's unreachable "empty account" case —
`account_cost_node` is a one-entry dict literal). -/
def processNode (env : Env) (st : PTree × List String) (node : NodeIn) :
    Option (PTree × List String) :=
  let tree := st.1
  let errors := st.2
  if node.balanceKeys = [] then some (tree, errors)
  else
    let account_name := node.name
    let commodity := node_commodity node
    let asset_class := asset_class_of env commodity
    let asset_subclass := asset_subclass_of env commodity
    let tree := ensureSubclass (ensureClass tree asset_class) asset_class asset_subclass
    let account_cost_node : List (String × ℚ) := [(node.costCurrency, node.costNumber)]
    match dlookup account_cost_node env.operating_currency with
    | some account_cost =>
      match node.latestPrice with
      | some (some lpdate, _) =>
        match _asset_info node with
        | some (mv, gain, pctg) =>
          let account_data : AccountData :=
            { balance_market_value := mv, income_gain_loss := some gain,
              gain_loss_percentage := some pctg, latest_price_date := some lpdate }
          some (accumulate
              (insertAccount tree asset_class asset_subclass account_name account_data)
              asset_class asset_subclass mv, errors)
        | none => none
      | _ =>
        let account_data : AccountData :=
          { balance_market_value := account_cost, income_gain_loss := none,
            gain_loss_percentage := none, latest_price_date := none }
        some (accumulate
            (insertAccount tree asset_class asset_subclass account_name account_data)
            asset_class asset_subclass account_cost, errors)
    | none =>
      if account_cost_node.length = 0 then
        let account_data : AccountData :=
          { balance_market_value := 0, income_gain_loss := some 0,
            gain_loss_percentage := some 0, latest_price_date := none }
        some (insertAccount tree asset_class asset_subclass account_name account_data, errors)
      else
        some (tree, errors ++ ["account " ++ account_name ++
          " has balances not in operating currency " ++ env.operating_currency])

/-- The first loop of `_portfolio_data` over all selected nodes. -/
def buildLoop (env : Env) : List NodeIn → PTree × List String → Option (PTree × List String)
  | [], st => some st
  | n :: t, st =>
    match processNode env st n with
    | some st2 => buildLoop env t st2
    | none => none

/-- The second pass of `_portfolio_data`: the six allocation computations, each
with its own inline zero-denominator guard. -/
def allocPass (t : PTree) : PTree :=
  { t with asset_classes := t.asset_classes.map (fun ce =>
      let c := ce.2
      let c := { c with portfolio_allocation :=
        (if t.portfolio_total = 0 then 0
         else pyRound2 (c.asset_class_total / t.portfolio_total * 100)) }
      let c := { c with asset_subclasses := c.asset_subclasses.map (fun se =>
        let s := se.2
        let s := { s with portfolio_allocation :=
          (if t.portfolio_total = 0 then 0
           else pyRound2 (s.asset_subclass_total / t.portfolio_total * 100)) }
        let s := { s with asset_class_allocation :=
          (if c.asset_class_total = 0 then 0
           else pyRound2 (s.asset_subclass_total / c.asset_class_total * 100)) }
        let s := { s with accounts := s.accounts.map (fun ae =>
          let a := ae.2
          let a := { a with portfolio_allocation :=
            (if t.portfolio_total = 0 then 0
             else pyRound2 (a.balance_market_value / t.portfolio_total * 100)) }
          let a := { a with asset_class_allocation :=
            (if c.asset_class_total = 0 then 0
             else pyRound2 (a.balance_market_value / c.asset_class_total * 100)) }
          let a := { a with asset_subclass_allocation :=
            (if s.asset_subclass_total = 0 then 0
             else pyRound2 (a.balance_market_value / s.asset_subclass_total * 100)) }
          (ae.1, a)) }
        (se.1, s)) }
      (ce.1, c)) }

/-- `_portfolio_data`: build the tree and the error list, then annotate
allocations; the constant `types` schema is modelled separately. -/
def _portfolio_data (env : Env) (nodes : List NodeIn) : Option (PTree × List String) :=
  match buildLoop env nodes ({ portfolio_total := 0, asset_classes := [] }, []) with
  | some (t, errors) => some (allocPass t, errors)
  | none => none

/-- Modelled from the spec: `pct(n, d) = 0 if d == 0 else round(n/d*100, 2)` —
the allocation formula the spec states for every level (refinement target for
the inline computations of `allocPass`). -/
def pct_spec (n d : ℚ) : ℚ := if d = 0 then 0 else pyRound2 (n / d * 100)

/-- The `types` schema of `_portfolio_data`, in source order. -/
def types : List Col :=
  [⟨"portfolio_total", ColKind.decimal⟩,
   ⟨"asset_classes", ColKind.pydict⟩,
   ⟨"portfolio_allocation", ColKind.decimalPercent⟩,
   ⟨"asset_class_total", ColKind.decimal⟩,
   ⟨"asset_subclasses", ColKind.pydict⟩,
   ⟨"asset_class_allocation", ColKind.decimalPercent⟩,
   ⟨"asset_subclass_total", ColKind.decimal⟩,
   ⟨"accounts", ColKind.accountsDict⟩,
   ⟨"asset_subclass_allocation", ColKind.decimalPercent⟩,
   ⟨"balance_market_value", ColKind.decimal⟩,
   ⟨"income_gain_loss", ColKind.decimalIncomeGainLoss⟩,
   ⟨"gain_loss_percentage", ColKind.decimalPercentGainLoss⟩,
   ⟨"latest_price_date", ColKind.pydate⟩]

/-- An optional Decimal as a Python value. -/
def optNumVal : Option ℚ → Val
  | some q => Val.num q
  | none => Val.null

/-- An optional date as a Python value. -/
def optDateVal : Option Nat → Val
  | some d => Val.date d
  | none => Val.null

/-- The `account_data` dict in its final key insertion order. -/
def accountVal (a : AccountData) : Val :=
  Val.dict
    [("balance_market_value", Val.num a.balance_market_value),
     ("income_gain_loss", optNumVal a.income_gain_loss),
     ("gain_loss_percentage", optNumVal a.gain_loss_percentage),
     ("latest_price_date", optDateVal a.latest_price_date),
     ("portfolio_allocation", Val.num a.portfolio_allocation),
     ("asset_class_allocation", Val.num a.asset_class_allocation),
     ("asset_subclass_allocation", Val.num a.asset_subclass_allocation)]

/-- The subclass dict in its final key insertion order (`asset_class_allocation`
is appended last, by the second pass). -/
def subclassVal (s : SubclassNode) : Val :=
  Val.dict
    [("asset_subclass_total", Val.num s.asset_subclass_total),
     ("portfolio_allocation", Val.num s.portfolio_allocation),
     ("asset_subclass_asset_class_allocation", Val.num s.asset_subclass_asset_class_allocation),
     ("accounts", Val.dict (s.accounts.map (fun e => (e.1, accountVal e.2)))),
     ("asset_class_allocation", Val.num s.asset_class_allocation)]

/-- The class dict in its key insertion order. -/
def classVal (c : ClassNode) : Val :=
  Val.dict
    [("portfolio_allocation", Val.num c.portfolio_allocation),
     ("asset_class_total", Val.num c.asset_class_total),
     ("asset_subclasses", Val.dict (c.asset_subclasses.map (fun e => (e.1, subclassVal e.2))))]

/-- The `portfolio_tree` dict in its key insertion order. -/
def ptreeVal (t : PTree) : List (String × Val) :=
  [("portfolio_total", Val.num t.portfolio_total),
   ("asset_classes", Val.dict (t.asset_classes.map (fun e => (e.1, classVal e.2))))]

/-- One entry of the extension's `config` list: the option key with its value.
Any key other than the two recognized ones raises `FavaAPIError`. -/
inductive COption where
  | account_name_pattern : String → COption
  | account_open_metadata_pattern : String → String → COption
  | invalid_option : String → COption

/-- Python `str.capitalize()`. -/
def pyCapitalize (s : String) : String :=
  match s.data with
  | [] => ""
  | c :: t => String.mk (Char.toUpper c :: t.map Char.toLower)

/-- One returned view: `(title, subtitle, (flattened_table, types))`; the error
list of `_portfolio_data` is dropped when the tuple is rebuilt. -/
structure PortfolioView where
  title : String
  subtitle : String
  table : List (String × Val)

/-- The selection loop of `_account_name_pattern`: every matching account name
from the tree, first occurrence only, in tree order. -/
def selectLoop (rm : String → Bool) : List (String × NodeIn) → List String → List String
  | [], acc => acc
  | e :: t, acc =>
    selectLoop rm t (if rm e.1 ∧ e.1 ∉ acc then acc ++ [e.1] else acc)

/-- `[tree[x] for x in selected_accounts]`, `KeyError` as `none`. -/
def lookupNodes (tree : List (String × NodeIn)) : List String → Option (List NodeIn)
  | [] => some []
  | a :: t =>
    match dlookup tree a with
    | some n =>
      match lookupNodes tree t with
      | some l => some (n :: l)
      | none => none
    | none => none

/-- Accounts selected by `_account_metadata_pattern`: `Open` entries whose meta
value under the key matches the pattern (no dedup). -/
def selectMeta (env : Env) (metadata_key pattern : String) : List String :=
  (env.open_entries.filter (fun e =>
    match dlookup e.2 metadata_key with
    | some v => env.rmatch pattern v
    | none => false)).map (fun e => e.1)

/-- One iteration of the `portfolio_accounts` loop: dispatch on the option key,
build the portfolio data, and flatten it; an unrecognized option key raises
`FavaAPIError` (`none`), and any exception below also propagates as `none`. -/
def processOption (env : Env) (opt : COption) : Option PortfolioView :=
  match opt with
  | COption.account_name_pattern pattern =>
    match lookupNodes env.tree (selectLoop (env.rmatch pattern) env.tree []) with
    | some nodes =>
      match _portfolio_data env nodes with
      | some (t, _) =>
        match insert_rowspans (ptreeVal t) types true with
        | some flat =>
          some ⟨pyCapitalize pattern,
            "Account names matching: \x27" ++ pattern ++ "\x27", flat⟩
        | none => none
      | none => none
    | none => none
  | COption.account_open_metadata_pattern metadata_key pattern =>
    match lookupNodes env.tree (selectMeta env metadata_key pattern) with
    | some nodes =>
      match _portfolio_data env nodes with
      | some (t, _) =>
        match insert_rowspans (ptreeVal t) types true with
        | some flat =>
          some ⟨pyCapitalize pattern,
            "Accounts with \x27" ++ metadata_key ++ "\x27 metadata matching: \x27" ++
              pattern ++ "\x27", flat⟩
        | none => none
      | none => none
    | none => none
  | COption.invalid_option _ => none

/-- The `for option in self.config` loop inside the single `try`: the first
exception is caught outside the loop, so the views accumulated so far are
returned and everything later is never processed. -/
def paLoop (env : Env) : List COption → List PortfolioView → List PortfolioView
  | [], acc => acc
  | o :: t, acc =>
    match processOption env o with
    | some v => paLoop env t (acc ++ [v])
    | none => acc

/-- `portfolio_accounts`: the whole loop wrapped in one `try/except` that prints
the traceback and returns whatever was accumulated. -/
def portfolio_accounts (env : Env) (config : List COption) : List PortfolioView :=
  paLoop env config []

/-- Sum of the `asset_class_total` values of a class mapping. -/
def classSum (l : List (String × ClassNode)) : ℚ :=
  (l.map (fun e => e.2.asset_class_total)).sum

/-- Sum of the `asset_subclass_total` values of a subclass mapping. -/
def subSum (l : List (String × SubclassNode)) : ℚ :=
  (l.map (fun e => e.2.asset_subclass_total)).sum

/-- The `asset_class_total` stored under a class tag (0 when the tag is absent). -/
def classTotalAt (t : PTree) (k : String) : ℚ :=
  ((dlookup t.asset_classes k).map (fun c => c.asset_class_total)).getD 0

/-- The `asset_subclass_total` stored under a class and subclass tag (0 when absent). -/
def subTotalAt (t : PTree) (k k2 : String) : ℚ :=
  (((dlookup t.asset_classes k).bind (fun c => dlookup c.asset_subclasses k2)).map
    (fun s => s.asset_subclass_total)).getD 0

/-- The account record stored under a class tag, subclass tag and account name. -/
def accountAt (t : PTree) (ac su name : String) : Option AccountData :=
  ((dlookup t.asset_classes ac).bind (fun c => dlookup c.asset_subclasses su)).bind
    (fun s => dlookup s.accounts name)

/-- The account appears somewhere in the tree. -/
def treeHasAccount (t : PTree) (name : String) : Prop :=
  ∃ ac su, (accountAt t ac su name).isSome = true

/-- The tree invariant of the spec: the portfolio total is the sum of the class
totals, and every class total is the sum of its subclass totals. -/
def sumsInv (t : PTree) : Prop :=
  t.portfolio_total = classSum t.asset_classes ∧
  ∀ ce ∈ t.asset_classes, ce.2.asset_class_total = subSum ce.2.asset_subclasses

/-- Sum of the rowspans of a flattened group value's direct children (the cells
of a flattened dict). -/
def cellSpanSum : List (String × Val) → Nat
  | [] => 0
  | (_, Val.cell _ m) :: t => m + cellSpanSum t
  | _ :: t => cellSpanSum t

/-- The back-propagation contract for one flattened row: when the schema suffix
contains a group column, every scalar column before it carries the row's own
span, and the group column holds the flattened mapping whose direct children's
spans sum to that same span. -/
def backOk (cs : List Col) (r : Val) (n : Nat) : Prop :=
  match splitCols cs with
  | (_, none) => True
  | (pre, some (g, _)) =>
    ∃ row, r = Val.dict row ∧
      (∀ c ∈ pre, ∃ v, dlookup row c.name = some (Val.cell v n)) ∧
      ∃ sub, dlookup row g.name = some (Val.dict sub) ∧ cellSpanSum sub = n

/-- Span bookkeeping contract of the recursive flattening pass: the spans sum to
the subtree's leaf-row count, each key's span is its own subtree's leaf-row
count, and each row satisfies the back-propagation contract. -/
def flattenSpansOk (cs : List Col) (rows : List (String × Val))
    (res : List (String × Val × Nat)) : Prop :=
  spanSum res = rowLeavesList cs rows ∧
  List.Forall₂ (fun (e : String × Val) (o : String × Val × Nat) =>
    o.1 = e.1 ∧ o.2.2 = rowLeavesV cs e.2) rows res ∧
  ∀ o ∈ res, backOk cs o.2.1 o.2.2

/-! ### Association-list lemmas -/

theorem dlookup_dset_eq {α : Type} (l : List (String × α)) (k : String) (v : α) :
    dlookup (dset l k v) k = some v := by
  induction l with
  | nil => simp [dset, dlookup]
  | cons e t ih =>
    obtain ⟨k0, v0⟩ := e
    by_cases h : k0 = k
    · simp [dset, h, dlookup]
    · simp [dset, h, dlookup, ih]

theorem dlookup_dset_ne {α : Type} (l : List (String × α)) (k2 k : String) (v : α)
    (h : k2 ≠ k) : dlookup (dset l k2 v) k = dlookup l k := by
  induction l with
  | nil => simp [dset, dlookup, h]
  | cons e t ih =>
    obtain ⟨k0, v0⟩ := e
    by_cases h0 : k0 = k2
    · subst h0
      simp [dset, dlookup, h]
    · simp only [dset, h0, if_false]
      by_cases h1 : k0 = k
      · simp [dlookup, h1]
      · simp [dlookup, h1, ih]

theorem dlookup_modifyAt_eq {α : Type} (l : List (String × α)) (k : String) (f : α → α) :
    dlookup (modifyAt l k f) k = (dlookup l k).map f := by
  induction l with
  | nil => simp [modifyAt, dlookup]
  | cons e t ih =>
    obtain ⟨k0, v0⟩ := e
    by_cases h : k0 = k
    · simp [modifyAt, h, dlookup]
    · simp [modifyAt, h, dlookup, ih]

theorem dlookup_modifyAt_ne {α : Type} (l : List (String × α)) (k2 k : String) (f : α → α)
    (h : k2 ≠ k) : dlookup (modifyAt l k2 f) k = dlookup l k := by
  induction l with
  | nil => simp [modifyAt, dlookup]
  | cons e t ih =>
    obtain ⟨k0, v0⟩ := e
    by_cases h0 : k0 = k2
    · subst h0
      simp [modifyAt, dlookup, h]
    · simp only [modifyAt, h0, if_false]
      by_cases h1 : k0 = k
      · simp [dlookup, h1]
      · simp [dlookup, h1, ih]

theorem dlookup_append_single {α : Type} (l : List (String × α)) (a k : String) (x : α) :
    dlookup (l ++ [(a, x)]) k =
      (match dlookup l k with
       | some v => some v
       | none => if a = k then some x else none) := by
  induction l with
  | nil => simp [dlookup]
  | cons e t ih =>
    obtain ⟨k0, v0⟩ := e
    by_cases h : k0 = k
    · simp [dlookup, h]
    · simp [dlookup, h, ih]

theorem dlookup_map_value {α β : Type} (l : List (String × α)) (F : α → β) (k : String) :
    dlookup (l.map (fun e => (e.1, F e.2))) k = (dlookup l k).map F := by
  induction l with
  | nil => simp [dlookup]
  | cons e t ih =>
    obtain ⟨k0, v0⟩ := e
    by_cases h : k0 = k
    · simp [dlookup, h]
    · simp [dlookup, h, ih]

/-! ### C10: `node_commodity` classification -/

/-- C10 (counterexample): a node whose single balance currency is the literal
string "mixed_commodities" is classified as "mixed_commodities" although no two
balance keys differ, refuting the claim's "only when at least two balance keys
carry different currencies". -/
theorem C10_node_commodity_counterexample :
    node_commodity ⟨"Assets:M", ["mixed_commodities"], "USD", 0, none, 0⟩ =
      "mixed_commodities" ∧
    ¬∃ a ∈ (["mixed_commodities"] : List String),
      ∃ b ∈ (["mixed_commodities"] : List String), a ≠ b := by
  decide

/-- C10 (amended): for an empty balance `node_commodity` returns the empty string;
when every balance key carries the same currency it returns that currency; and it
returns "mixed_commodities" only when two balance keys differ or the shared
currency is itself the literal string "mixed_commodities". -/
theorem C10_node_commodity (node : NodeIn) :
    (node.balanceKeys = [] → node_commodity node = "") ∧
    (∀ ref rest, node.balanceKeys = ref :: rest →
      (∀ c ∈ node.balanceKeys, c = ref) → node_commodity node = ref) ∧
    (node_commodity node = "mixed_commodities" →
      (∃ a ∈ node.balanceKeys, ∃ b ∈ node.balanceKeys, a ≠ b) ∨
      (node.balanceKeys ≠ [] ∧ ∀ c ∈ node.balanceKeys, c = "mixed_commodities")) := by
  refine ⟨fun h => by simp [node_commodity, h], ?_, ?_⟩
  · intro ref rest hk hall
    rw [hk] at hall
    simp only [node_commodity, hk]
    rw [if_pos]
    simp only [List.all_eq_true, decide_eq_true_iff]
    exact hall
  · intro h
    cases hk : node.balanceKeys with
    | nil => simp [node_commodity, hk] at h
    | cons ref rest =>
      simp only [node_commodity, hk] at h
      by_cases hall : (ref :: rest).all (fun c => decide (c = ref)) = true
      · rw [if_pos hall] at h
        right
        simp only [List.all_eq_true, decide_eq_true_iff] at hall
        refine ⟨by simp, ?_⟩
        intro c hc
        rw [hall c hc, h]
      · left
        simp only [List.all_eq_true, decide_eq_true_iff] at hall
        push_neg at hall
        obtain ⟨b, hb, hbne⟩ := hall
        exact ⟨ref, by simp, b, hb, fun hh => hbne hh.symm⟩

/-- C10 (witness): a node with two equal balance currencies is classified as that
currency. -/
theorem C10_node_commodity_witness :
    node_commodity ⟨"Assets:X", ["USD", "USD"], "USD", 0, none, 0⟩ = "USD" :=
  (C10_node_commodity ⟨"Assets:X", ["USD", "USD"], "USD", 0, none, 0⟩).2.1 "USD" ["USD"]
    rfl (by decide)

/-! ### Generic sum / lookup preservation lemmas -/

theorem getD_map_append_single {α : Type} (l : List (String × α)) (a k : String) (x : α)
    (F : α → ℚ) (hx : F x = 0) :
    ((dlookup (l ++ [(a, x)]) k).map F).getD 0 = ((dlookup l k).map F).getD 0 := by
  rw [dlookup_append_single]
  cases hd : dlookup l k
  · by_cases hak : a = k <;> simp [hak, hx]
  · simp

theorem getD_map_modifyAt {α : Type} (l : List (String × α)) (k2 k : String) (f : α → α)
    (F : α → ℚ) (hf : ∀ c, F (f c) = F c) :
    ((dlookup (modifyAt l k2 f) k).map F).getD 0 = ((dlookup l k).map F).getD 0 := by
  by_cases h : k2 = k
  · subst h
    rw [dlookup_modifyAt_eq]
    cases hd : dlookup l k2 <;> simp [hf]
  · rw [dlookup_modifyAt_ne l k2 k f h]

theorem sumF_modifyAt {α : Type} (l : List (String × α)) (k : String) (f : α → α)
    (F : α → ℚ) :
    ((modifyAt l k f).map (fun e => F e.2)).sum =
      (l.map (fun e => F e.2)).sum +
        (match dlookup l k with
         | some c => F (f c) - F c
         | none => 0) := by
  induction l with
  | nil => simp [modifyAt, dlookup]
  | cons e t ih =>
    obtain ⟨k0, v0⟩ := e
    by_cases h : k0 = k
    · simp only [modifyAt, h, if_true, dlookup, List.map_cons, List.sum_cons]
      ring
    · simp only [modifyAt, h, if_false, dlookup, List.map_cons, List.sum_cons, ih]
      cases hd : dlookup t k <;> simp <;> ring

theorem mem_modifyAt {α : Type} (l : List (String × α)) (k : String) (f : α → α) :
    ∀ ce ∈ modifyAt l k f, ce ∈ l ∨ ∃ c, dlookup l k = some c ∧ ce = (k, f c) := by
  induction l with
  | nil => simp [modifyAt]
  | cons e t ih =>
    obtain ⟨k0, v0⟩ := e
    by_cases h : k0 = k
    · subst h
      intro ce hce
      simp only [modifyAt, if_true, List.mem_cons] at hce
      rcases hce with hce | hce
      · exact Or.inr ⟨v0, by simp [dlookup], hce⟩
      · exact Or.inl (List.mem_cons_of_mem _ hce)
    · intro ce hce
      simp only [modifyAt, h, if_false, List.mem_cons] at hce
      rcases hce with hce | hce
      · exact Or.inl (by simp [hce])
      · rcases ih ce hce with hh | ⟨c, hc1, hc2⟩
        · exact Or.inl (List.mem_cons_of_mem _ hh)
        · exact Or.inr ⟨c, by simp [dlookup, h, hc1], hc2⟩

theorem modifyAt_modifyAt {α : Type} (l : List (String × α)) (k : String) (f g : α → α) :
    modifyAt (modifyAt l k f) k g = modifyAt l k (fun c => g (f c)) := by
  induction l with
  | nil => simp [modifyAt]
  | cons e t ih =>
    obtain ⟨k0, v0⟩ := e
    by_cases h : k0 = k
    · simp [modifyAt, h]
    · simp [modifyAt, h, ih]

theorem sumF_append_single {α : Type} (l : List (String × α)) (a : String) (x : α)
    (F : α → ℚ) :
    ((l ++ [(a, x)]).map (fun e => F e.2)).sum = (l.map (fun e => F e.2)).sum + F x := by
  simp

theorem sumF_map_value {α : Type} (l : List (String × α)) (G : String × α → α)
    (F : α → ℚ) (hG : ∀ e, F (G e) = F e.2) :
    ((l.map (fun e => (e.1, G e))).map (fun e => F e.2)).sum =
      (l.map (fun e => F e.2)).sum := by
  induction l with
  | nil => simp
  | cons e t ih =>
    simp only [List.map_cons, List.sum_cons, ih]
    rw [hG]

/-! ### Effects of the tree-update helpers -/

theorem ensureClass_portfolio_total (t : PTree) (ac : String) :
    (ensureClass t ac).portfolio_total = t.portfolio_total := by
  unfold ensureClass
  split <;> rfl

theorem ensureSubclass_portfolio_total (t : PTree) (ac su : String) :
    (ensureSubclass t ac su).portfolio_total = t.portfolio_total := rfl

theorem insertAccount_portfolio_total (t : PTree) (ac su n : String) (d : AccountData) :
    (insertAccount t ac su n d).portfolio_total = t.portfolio_total := rfl

theorem accumulate_portfolio_total (t : PTree) (ac su : String) (mv : ℚ) :
    (accumulate t ac su mv).portfolio_total = t.portfolio_total + mv := by
  by_cases h : mv = 0 <;> simp [accumulate, h]

theorem classTotalAt_ensureClass (t : PTree) (ac k : String) :
    classTotalAt (ensureClass t ac) k = classTotalAt t k := by
  unfold ensureClass classTotalAt
  cases hc : containsKey t.asset_classes ac
  · simp only [Bool.false_eq_true, if_false]
    exact getD_map_append_single _ _ _ _ _ rfl
  · simp

theorem subTotalAt_ensureClass (t : PTree) (ac k k2 : String) :
    subTotalAt (ensureClass t ac) k k2 = subTotalAt t k k2 := by
  unfold ensureClass subTotalAt
  cases hc : containsKey t.asset_classes ac
  · simp only [Bool.false_eq_true, if_false]
    rw [dlookup_append_single]
    cases hd : dlookup t.asset_classes k
    · by_cases hak : ac = k <;> simp [hak, dlookup]
    · simp
  · simp

theorem accountAt_ensureClass (t : PTree) (ac a b n : String) :
    accountAt (ensureClass t ac) a b n = accountAt t a b n := by
  unfold ensureClass accountAt
  cases hc : containsKey t.asset_classes ac
  · simp only [Bool.false_eq_true, if_false]
    rw [dlookup_append_single]
    cases hd : dlookup t.asset_classes a
    · by_cases hak : ac = a <;> simp [hak, dlookup]
    · simp
  · simp

theorem classTotalAt_ensureSubclass (t : PTree) (ac su k : String) :
    classTotalAt (ensureSubclass t ac su) k = classTotalAt t k := by
  unfold ensureSubclass classTotalAt
  refine getD_map_modifyAt _ _ _ _ _ ?_
  intro c
  split <;> rfl

theorem subTotalAt_ensureSubclass (t : PTree) (ac su k k2 : String) :
    subTotalAt (ensureSubclass t ac su) k k2 = subTotalAt t k k2 := by
  unfold ensureSubclass subTotalAt
  by_cases hk : ac = k
  · subst hk
    rw [dlookup_modifyAt_eq]
    cases hd : dlookup t.asset_classes ac
    · simp
    · rename_i c
      simp only [Option.map_some', Option.some_bind]
      cases hs : containsKey c.asset_subclasses su
      · simp only [Bool.false_eq_true, if_false]
        rw [dlookup_append_single]
        cases hd2 : dlookup c.asset_subclasses k2
        · by_cases hsk : su = k2 <;> simp [hsk]
        · simp
      · simp [hs]
  · rw [dlookup_modifyAt_ne _ _ _ _ hk]

theorem accountAt_ensureSubclass (t : PTree) (ac su a b n : String) :
    accountAt (ensureSubclass t ac su) a b n = accountAt t a b n := by
  unfold ensureSubclass accountAt
  by_cases hk : ac = a
  · subst hk
    rw [dlookup_modifyAt_eq]
    cases hd : dlookup t.asset_classes ac
    · simp
    · rename_i c
      simp only [Option.map_some', Option.some_bind]
      cases hs : containsKey c.asset_subclasses su
      · simp only [Bool.false_eq_true, if_false]
        rw [dlookup_append_single]
        cases hd2 : dlookup c.asset_subclasses b
        · by_cases hsk : su = b <;> simp [hsk, dlookup]
        · simp
      · simp [hs]
  · rw [dlookup_modifyAt_ne _ _ _ _ hk]

theorem dlookup_mem {α : Type} (l : List (String × α)) (k : String) (v : α)
    (h : dlookup l k = some v) : (k, v) ∈ l := by
  induction l with
  | nil => simp [dlookup] at h
  | cons e t ih =>
    obtain ⟨k0, v0⟩ := e
    by_cases h0 : k0 = k
    · subst h0
      simp only [dlookup, if_true] at h
      simp [← Option.some.inj h]
    · simp only [dlookup, h0, if_false] at h
      exact List.mem_cons_of_mem _ (ih h)

theorem dlookup_map_entry {α β : Type} (l : List (String × α)) (G : String × α → β)
    (k : String) :
    dlookup (l.map (fun e => (e.1, G e))) k = (dlookup l k).map (fun v => G (k, v)) := by
  induction l with
  | nil => simp [dlookup]
  | cons e t ih =>
    obtain ⟨k0, v0⟩ := e
    by_cases h : k0 = k
    · subst h
      simp [dlookup]
    · simp [dlookup, h, ih]

theorem classTotalAt_insertAccount (t : PTree) (ac su n : String) (d : AccountData)
    (k : String) :
    classTotalAt (insertAccount t ac su n d) k = classTotalAt t k := by
  unfold insertAccount classTotalAt
  exact getD_map_modifyAt _ _ _ _ _ (fun c => rfl)

theorem subTotalAt_insertAccount (t : PTree) (ac su n : String) (d : AccountData)
    (k k2 : String) :
    subTotalAt (insertAccount t ac su n d) k k2 = subTotalAt t k k2 := by
  unfold insertAccount subTotalAt
  by_cases hk : ac = k
  · subst hk
    rw [dlookup_modifyAt_eq]
    cases hd : dlookup t.asset_classes ac
    · simp
    · rename_i c
      simp only [Option.map_some', Option.some_bind]
      exact getD_map_modifyAt _ _ _ _ _ (fun s => rfl)
  · rw [dlookup_modifyAt_ne _ _ _ _ hk]

theorem accountAt_insertAccount_self (t : PTree) (ac su n : String) (d : AccountData)
    (c : ClassNode) (s : SubclassNode)
    (hc : dlookup t.asset_classes ac = some c)
    (hs : dlookup c.asset_subclasses su = some s) :
    accountAt (insertAccount t ac su n d) ac su n = some d := by
  unfold insertAccount accountAt
  rw [dlookup_modifyAt_eq, hc]
  simp only [Option.map_some', Option.some_bind]
  rw [dlookup_modifyAt_eq, hs]
  simp only [Option.map_some', Option.some_bind]
  exact dlookup_dset_eq _ _ _

theorem accountAt_insertAccount_isSome (t : PTree) (ac su n : String) (d : AccountData)
    (a b nm : String) (h : (accountAt t a b nm).isSome = true) :
    (accountAt (insertAccount t ac su n d) a b nm).isSome = true := by
  unfold accountAt at h
  unfold insertAccount accountAt
  by_cases hac : ac = a
  · subst hac
    rw [dlookup_modifyAt_eq]
    cases hc : dlookup t.asset_classes ac
    · rw [hc] at h
      simp at h
    · rename_i c
      rw [hc] at h
      simp only [Option.map_some', Option.some_bind] at h ⊢
      by_cases hsu : su = b
      · subst hsu
        rw [dlookup_modifyAt_eq]
        cases hss : dlookup c.asset_subclasses su
        · rw [hss] at h
          simp at h
        · rename_i s
          rw [hss] at h
          simp only [Option.map_some', Option.some_bind] at h ⊢
          by_cases hn : n = nm
          · subst hn
            rw [dlookup_dset_eq]
            rfl
          · rw [dlookup_dset_ne _ _ _ _ hn]
            exact h
      · rw [dlookup_modifyAt_ne _ _ _ _ hsu]
        exact h
  · rw [dlookup_modifyAt_ne _ _ _ _ hac]
    exact h

theorem accumulate_asset_classes (t : PTree) (ac su : String) (mv : ℚ) :
    (accumulate t ac su mv).asset_classes =
      modifyAt t.asset_classes ac (fun c =>
        { c with asset_class_total := c.asset_class_total + mv,
                 asset_subclasses := modifyAt c.asset_subclasses su (fun s =>
                   { s with asset_subclass_total := s.asset_subclass_total + mv }) }) := by
  unfold accumulate
  have h1 : (if mv ≠ 0 then { t with portfolio_total := t.portfolio_total + mv }
      else t).asset_classes = t.asset_classes := by
    split <;> rfl
  simp only [h1, modifyAt_modifyAt]

theorem accountAt_accumulate (t : PTree) (ac su : String) (mv : ℚ) (a b nm : String) :
    accountAt (accumulate t ac su mv) a b nm = accountAt t a b nm := by
  unfold accountAt
  rw [accumulate_asset_classes]
  by_cases hac : ac = a
  · subst hac
    rw [dlookup_modifyAt_eq]
    cases hc : dlookup t.asset_classes ac
    · simp
    · rename_i c
      simp only [Option.map_some', Option.some_bind]
      by_cases hsu : su = b
      · subst hsu
        rw [dlookup_modifyAt_eq]
        cases hss : dlookup c.asset_subclasses su <;> simp
      · rw [dlookup_modifyAt_ne _ _ _ _ hsu]
  · rw [dlookup_modifyAt_ne _ _ _ _ hac]

theorem ensure_exists (t : PTree) (ac su : String) :
    ∃ c, dlookup (ensureSubclass (ensureClass t ac) ac su).asset_classes ac = some c ∧
      ∃ s, dlookup c.asset_subclasses su = some s := by
  have h1 : ∃ c1, dlookup (ensureClass t ac).asset_classes ac = some c1 := by
    unfold ensureClass containsKey
    cases hd : dlookup t.asset_classes ac
    · simp only [hd, Option.isSome_none, Bool.false_eq_true, if_false]
      rw [dlookup_append_single, hd]
      simp
    · simp [hd]
  obtain ⟨c1, hc1⟩ := h1
  unfold ensureSubclass
  rw [dlookup_modifyAt_eq, hc1]
  simp only [Option.map_some']
  refine ⟨_, rfl, ?_⟩
  unfold containsKey
  cases hs : dlookup c1.asset_subclasses su
  · simp only [hs, Option.isSome_none, Bool.false_eq_true, if_false]
    rw [dlookup_append_single, hs]
    simp
  · simp [hs]

theorem insertAccount_exists (t : PTree) (ac su n : String) (d : AccountData)
    (c : ClassNode) (s : SubclassNode)
    (hc : dlookup t.asset_classes ac = some c)
    (hs : dlookup c.asset_subclasses su = some s) :
    ∃ c2, dlookup (insertAccount t ac su n d).asset_classes ac = some c2 ∧
      ∃ s2, dlookup c2.asset_subclasses su = some s2 := by
  unfold insertAccount
  rw [dlookup_modifyAt_eq, hc]
  simp only [Option.map_some']
  refine ⟨_, rfl, ?_⟩
  rw [dlookup_modifyAt_eq, hs]
  simp

/-! ### Preservation of the sum invariant -/

theorem sumsInv_ensureClass (t : PTree) (ac : String) (h : sumsInv t) :
    sumsInv (ensureClass t ac) := by
  obtain ⟨h1, h2⟩ := h
  unfold ensureClass
  cases hc : containsKey t.asset_classes ac
  · simp only [Bool.false_eq_true, if_false]
    constructor
    · unfold classSum at h1 ⊢
      rw [sumF_append_single, ← h1]
      simp
    · intro ce hce
      rcases List.mem_append.mp hce with hh | hh
      · exact h2 ce hh
      · simp only [List.mem_singleton] at hh
        subst hh
        simp [subSum]
  · exact ⟨h1, h2⟩

theorem sumsInv_ensureSubclass (t : PTree) (ac su : String) (h : sumsInv t) :
    sumsInv (ensureSubclass t ac su) := by
  obtain ⟨h1, h2⟩ := h
  unfold ensureSubclass
  constructor
  · unfold classSum at h1 ⊢
    rw [sumF_modifyAt]
    cases hd : dlookup t.asset_classes ac
    · simp [← h1]
    · rename_i c
      simp only
      split <;> simp [← h1]
  · intro ce hce
    rcases mem_modifyAt _ _ _ ce hce with hh | ⟨c, hc1, hc2⟩
    · exact h2 ce hh
    · subst hc2
      have hcm := h2 (ac, c) (dlookup_mem _ _ _ hc1)
      simp only at hcm ⊢
      split
      · exact hcm
      · unfold subSum at hcm ⊢
        rw [sumF_append_single, ← hcm]
        simp

theorem sumsInv_insertAccount (t : PTree) (ac su n : String) (d : AccountData)
    (h : sumsInv t) : sumsInv (insertAccount t ac su n d) := by
  obtain ⟨h1, h2⟩ := h
  unfold insertAccount
  constructor
  · unfold classSum at h1 ⊢
    rw [sumF_modifyAt]
    cases hd : dlookup t.asset_classes ac <;> simp [← h1]
  · intro ce hce
    rcases mem_modifyAt _ _ _ ce hce with hh | ⟨c, hc1, hc2⟩
    · exact h2 ce hh
    · subst hc2
      have hcm := h2 (ac, c) (dlookup_mem _ _ _ hc1)
      simp only at hcm ⊢
      unfold subSum at hcm ⊢
      rw [sumF_modifyAt, ← hcm]
      cases hs : dlookup c.asset_subclasses su <;> simp

theorem sumsInv_accumulate (t : PTree) (ac su : String) (mv : ℚ)
    (c0 : ClassNode) (s0 : SubclassNode)
    (hc0 : dlookup t.asset_classes ac = some c0)
    (hs0 : dlookup c0.asset_subclasses su = some s0)
    (h : sumsInv t) : sumsInv (accumulate t ac su mv) := by
  obtain ⟨h1, h2⟩ := h
  constructor
  · rw [accumulate_portfolio_total]
    show _ = classSum (accumulate t ac su mv).asset_classes
    rw [accumulate_asset_classes]
    unfold classSum at h1 ⊢
    rw [sumF_modifyAt, hc0, h1]
    simp only
    ring
  · intro ce hce
    rw [accumulate_asset_classes] at hce
    rcases mem_modifyAt _ _ _ ce hce with hh | ⟨c, hc1, hc2⟩
    · exact h2 ce hh
    · subst hc2
      rw [hc0] at hc1
      obtain rfl : c0 = c := Option.some.inj hc1
      have hcm := h2 (ac, c0) (dlookup_mem _ _ _ hc0)
      simp only at hcm ⊢
      unfold subSum at hcm ⊢
      rw [sumF_modifyAt, hs0, ← hcm]
      simp only
      ring

theorem classSum_map_pres (l : List (String × ClassNode)) (G : String × ClassNode → ClassNode)
    (hG : ∀ e, (G e).asset_class_total = e.2.asset_class_total) :
    classSum (l.map (fun e => (e.1, G e))) = classSum l := by
  unfold classSum
  induction l with
  | nil => simp
  | cons e tl ih => simp only [List.map_cons, List.sum_cons, ih, hG]

theorem subSum_map_pres (l : List (String × SubclassNode)) (G : String × SubclassNode → SubclassNode)
    (hG : ∀ e, (G e).asset_subclass_total = e.2.asset_subclass_total) :
    subSum (l.map (fun e => (e.1, G e))) = subSum l := by
  unfold subSum
  induction l with
  | nil => simp
  | cons e tl ih => simp only [List.map_cons, List.sum_cons, ih, hG]

theorem sumsInv_allocPass (t : PTree) (h : sumsInv t) : sumsInv (allocPass t) := by
  obtain ⟨h1, h2⟩ := h
  constructor
  · show t.portfolio_total = classSum (allocPass t).asset_classes
    unfold allocPass
    dsimp only
    refine h1.trans (classSum_map_pres t.asset_classes _ ?_).symm
    intro e
    rfl
  · intro ce hce
    unfold allocPass at hce
    simp only [List.mem_map] at hce
    obtain ⟨e, he, rfl⟩ := hce
    have hcm := h2 e he
    dsimp only
    rw [hcm]
    refine (subSum_map_pres e.2.asset_subclasses _ ?_).symm
    intro e2
    rfl

theorem processNode_sumsInv (env : Env) (st st2 : PTree × List String) (node : NodeIn)
    (h : processNode env st node = some st2) (hinv : sumsInv st.1) : sumsInv st2.1 := by
  unfold processNode at h
  by_cases hb : node.balanceKeys = []
  · rw [if_pos hb] at h
    obtain rfl : (st.1, st.2) = st2 := Option.some.inj h
    exact hinv
  · rw [if_neg hb] at h
    dsimp only at h
    have hinv1 : sumsInv (ensureSubclass (ensureClass st.1
        (asset_class_of env (node_commodity node)))
        (asset_class_of env (node_commodity node))
        (asset_subclass_of env (node_commodity node))) :=
      sumsInv_ensureSubclass _ _ _ (sumsInv_ensureClass _ _ hinv)
    obtain ⟨c0, hc0, s0, hs0⟩ := ensure_exists st.1
      (asset_class_of env (node_commodity node))
      (asset_subclass_of env (node_commodity node))
    split at h
    · -- cost in operating currency
      split at h
      · -- price known
        split at h
        · -- _asset_info succeeded
          rename_i mvp hinfo
          obtain rfl := Option.some.inj h
          obtain ⟨c1, hc1, s1, hs1⟩ := insertAccount_exists _ _ _ node.name _ c0 s0 hc0 hs0
          exact sumsInv_accumulate _ _ _ _ c1 s1 hc1 hs1 (sumsInv_insertAccount _ _ _ _ _ hinv1)
        · exact absurd h (by simp)
      · -- no price
        obtain rfl := Option.some.inj h
        obtain ⟨c1, hc1, s1, hs1⟩ := insertAccount_exists _ _ _ node.name _ c0 s0 hc0 hs0
        exact sumsInv_accumulate _ _ _ _ c1 s1 hc1 hs1 (sumsInv_insertAccount _ _ _ _ _ hinv1)
    · -- cost not in operating currency
      split at h
      · -- dead branch: singleton dict has length 1
        obtain rfl := Option.some.inj h
        exact sumsInv_insertAccount _ _ _ _ _ hinv1
      · obtain rfl := Option.some.inj h
        exact hinv1

theorem processNode_accountAt_isSome (env : Env) (st st2 : PTree × List String)
    (node : NodeIn) (a b nm : String)
    (h : processNode env st node = some st2)
    (hhas : (accountAt st.1 a b nm).isSome = true) :
    (accountAt st2.1 a b nm).isSome = true := by
  unfold processNode at h
  by_cases hb : node.balanceKeys = []
  · rw [if_pos hb] at h
    obtain rfl : (st.1, st.2) = st2 := Option.some.inj h
    exact hhas
  · rw [if_neg hb] at h
    dsimp only at h
    have hpre : (accountAt (ensureSubclass (ensureClass st.1
        (asset_class_of env (node_commodity node)))
        (asset_class_of env (node_commodity node))
        (asset_subclass_of env (node_commodity node))) a b nm).isSome = true := by
      rw [accountAt_ensureSubclass, accountAt_ensureClass]
      exact hhas
    split at h
    · split at h
      · split at h
        · obtain rfl := Option.some.inj h
          rw [accountAt_accumulate]
          exact accountAt_insertAccount_isSome _ _ _ _ _ _ _ _ hpre
        · exact absurd h (by simp)
      · obtain rfl := Option.some.inj h
        rw [accountAt_accumulate]
        exact accountAt_insertAccount_isSome _ _ _ _ _ _ _ _ hpre
    · split at h
      · obtain rfl := Option.some.inj h
        exact accountAt_insertAccount_isSome _ _ _ _ _ _ _ _ hpre
      · obtain rfl := Option.some.inj h
        exact hpre

theorem processNode_adds (env : Env) (st st2 : PTree × List String) (node : NodeIn)
    (h : processNode env st node = some st2)
    (hb : node.balanceKeys ≠ []) (hcur : node.costCurrency = env.operating_currency) :
    (accountAt st2.1 (asset_class_of env (node_commodity node))
      (asset_subclass_of env (node_commodity node)) node.name).isSome = true := by
  unfold processNode at h
  rw [if_neg hb] at h
  dsimp only at h
  obtain ⟨c0, hc0, s0, hs0⟩ := ensure_exists st.1
    (asset_class_of env (node_commodity node))
    (asset_subclass_of env (node_commodity node))
  split at h
  · split at h
    · split at h
      · obtain rfl := Option.some.inj h
        rw [accountAt_accumulate,
          accountAt_insertAccount_self _ _ _ _ _ c0 s0 hc0 hs0]
        rfl
      · exact absurd h (by simp)
    · obtain rfl := Option.some.inj h
      rw [accountAt_accumulate,
        accountAt_insertAccount_self _ _ _ _ _ c0 s0 hc0 hs0]
      rfl
  · rename_i heq
    rw [hcur] at heq
    simp [dlookup] at heq

theorem buildLoop_sumsInv (env : Env) (nodes : List NodeIn) :
    ∀ (st st2 : PTree × List String), buildLoop env nodes st = some st2 →
      sumsInv st.1 → sumsInv st2.1 := by
  induction nodes with
  | nil =>
    intro st st2 h hi
    obtain rfl : st = st2 := Option.some.inj h
    exact hi
  | cons n t ih =>
    intro st st2 h hi
    unfold buildLoop at h
    cases hp : processNode env st n with
    | none => rw [hp] at h; exact absurd h (by simp)
    | some stm =>
      rw [hp] at h
      exact ih _ _ h (processNode_sumsInv _ _ _ _ hp hi)

theorem buildLoop_accountAt_isSome (env : Env) (nodes : List NodeIn) :
    ∀ (st st2 : PTree × List String) (a b nm : String),
      buildLoop env nodes st = some st2 →
      (accountAt st.1 a b nm).isSome = true → (accountAt st2.1 a b nm).isSome = true := by
  induction nodes with
  | nil =>
    intro st st2 a b nm h hi
    obtain rfl : st = st2 := Option.some.inj h
    exact hi
  | cons n t ih =>
    intro st st2 a b nm h hi
    unfold buildLoop at h
    cases hp : processNode env st n with
    | none => rw [hp] at h; exact absurd h (by simp)
    | some stm =>
      rw [hp] at h
      exact ih _ _ _ _ _ h (processNode_accountAt_isSome _ _ _ _ _ _ _ hp hi)

theorem buildLoop_adds (env : Env) (nodes : List NodeIn) :
    ∀ (st st2 : PTree × List String), buildLoop env nodes st = some st2 →
      ∀ n ∈ nodes, n.balanceKeys ≠ [] → n.costCurrency = env.operating_currency →
        treeHasAccount st2.1 n.name := by
  induction nodes with
  | nil => intro st st2 h n hn; exact absurd hn (List.not_mem_nil n)
  | cons n0 t ih =>
    intro st st2 h n hn hbne hcur
    unfold buildLoop at h
    cases hp : processNode env st n0 with
    | none => rw [hp] at h; exact absurd h (by simp)
    | some stm =>
      rw [hp] at h
      rcases List.mem_cons.mp hn with rfl | hn2
      · exact ⟨_, _, buildLoop_accountAt_isSome env t _ _ _ _ _ h
          (processNode_adds _ _ _ _ hp hbne hcur)⟩
      · exact ih _ _ h n hn2 hbne hcur

theorem accountAt_allocPass_isSome (t : PTree) (a b n : String) :
    (accountAt (allocPass t) a b n).isSome = (accountAt t a b n).isSome := by
  unfold allocPass accountAt
  dsimp only
  rw [dlookup_map_entry]
  cases hd : dlookup t.asset_classes a
  · simp
  · rename_i c
    simp only [Option.map_some', Option.some_bind]
    rw [dlookup_map_entry]
    cases hs : dlookup c.asset_subclasses b
    · simp
    · rename_i s
      simp only [Option.map_some', Option.some_bind]
      rw [dlookup_map_entry]
      cases ha : dlookup s.accounts n <;> simp

/-! ### C2: the tree's sum invariants -/

/-- C2: for every tree `_portfolio_data` produces, the portfolio total is the sum
of the class totals and every class total is the sum of its subclass totals;
every processed account whose cost is in the operating currency (including ones
with zero value) still appears in the tree. -/
theorem C2_portfolio_sums (env : Env) (nodes : List NodeIn) (out : PTree)
    (errs : List String) (h : _portfolio_data env nodes = some (out, errs)) :
    out.portfolio_total = classSum out.asset_classes ∧
    (∀ ce ∈ out.asset_classes, ce.2.asset_class_total = subSum ce.2.asset_subclasses) ∧
    ∀ n ∈ nodes, n.balanceKeys ≠ [] → n.costCurrency = env.operating_currency →
      treeHasAccount out n.name := by
  unfold _portfolio_data at h
  cases hb : buildLoop env nodes ({ portfolio_total := 0, asset_classes := [] }, []) with
  | none => rw [hb] at h; exact absurd h (by simp)
  | some st =>
    rw [hb] at h
    obtain ⟨t0, errs0⟩ := st
    have hh := Option.some.inj h
    rw [Prod.ext_iff] at hh
    obtain ⟨he1, he2⟩ := hh
    have hinv : sumsInv t0 :=
      buildLoop_sumsInv env nodes _ _ hb ⟨by simp [classSum], by simp⟩
    have hinv2 := sumsInv_allocPass _ hinv
    subst he1
    refine ⟨hinv2.1, hinv2.2, ?_⟩
    intro n hn hbne hcur
    obtain ⟨a, b, hab⟩ := buildLoop_adds env nodes _ _ hb n hn hbne hcur
    exact ⟨a, b, by rw [accountAt_allocPass_isSome]; exact hab⟩

/-- C2 (witness): the invariant instantiated on a concrete run. -/
theorem C2_portfolio_sums_witness :
    ({ portfolio_total := 0, asset_classes := [] } : PTree).portfolio_total =
      classSum ({ portfolio_total := 0, asset_classes := [] } : PTree).asset_classes :=
  (C2_portfolio_sums
    { operating_currency := "USD", commodity_dict := [], rmatch := fun _ _ => true,
      open_entries := [], tree := [] }
    [] { portfolio_total := 0, asset_classes := [] } [] rfl).1

/-! ### C4, C5, C6: per-account valuation behavior -/

/-- C4: an account whose cost is in a currency other than the operating currency
(and non-zero) appends exactly the documented warning string, leaves every total
and every account record unchanged, and the computation proceeds (no exception). -/
theorem C4_currency_mismatch (env : Env) (t : PTree) (errs : List String) (node : NodeIn)
    (hb : node.balanceKeys ≠ []) (hcur : node.costCurrency ≠ env.operating_currency)
    (hnz : node.costNumber ≠ 0) :
    ∃ t2, processNode env (t, errs) node = some (t2, errs ++
        ["account " ++ node.name ++ " has balances not in operating currency " ++
          env.operating_currency]) ∧
      t2.portfolio_total = t.portfolio_total ∧
      (∀ k, classTotalAt t2 k = classTotalAt t k) ∧
      (∀ k k2, subTotalAt t2 k k2 = subTotalAt t k k2) ∧
      (∀ a b nm, accountAt t2 a b nm = accountAt t a b nm) := by
  refine ⟨ensureSubclass (ensureClass t (asset_class_of env (node_commodity node)))
    (asset_class_of env (node_commodity node))
    (asset_subclass_of env (node_commodity node)), ?_, ?_, ?_, ?_, ?_⟩
  · unfold processNode
    rw [if_neg hb]
    simp [dlookup, hcur]
  · rw [ensureSubclass_portfolio_total, ensureClass_portfolio_total]
  · intro k
    rw [classTotalAt_ensureSubclass, classTotalAt_ensureClass]
  · intro k k2
    rw [subTotalAt_ensureSubclass, subTotalAt_ensureClass]
  · intro a b nm
    rw [accountAt_ensureSubclass, accountAt_ensureClass]

/-- C4 (witness): a EUR-cost account under a USD operating currency. -/
theorem C4_currency_mismatch_witness :
    ∃ t2, processNode
        { operating_currency := "USD", commodity_dict := [], rmatch := fun _ _ => true,
          open_entries := [], tree := [] }
        ({ portfolio_total := 0, asset_classes := [] }, [])
        ⟨"Assets:X", ["EUR"], "EUR", 5, none, 0⟩ =
      some (t2, [] ++
        ["account " ++ "Assets:X" ++ " has balances not in operating currency " ++ "USD"]) ∧
      t2.portfolio_total = ({ portfolio_total := 0, asset_classes := [] } : PTree).portfolio_total ∧
      (∀ k, classTotalAt t2 k = classTotalAt { portfolio_total := 0, asset_classes := [] } k) ∧
      (∀ k k2, subTotalAt t2 k k2 =
        subTotalAt { portfolio_total := 0, asset_classes := [] } k k2) ∧
      (∀ a b nm, accountAt t2 a b nm =
        accountAt { portfolio_total := 0, asset_classes := [] } a b nm) :=
  C4_currency_mismatch _ _ [] _ (by decide) (by decide) (by norm_num)

/-- C5: an account whose cost is in the operating currency but with no known
latest price gets market value equal to its cost basis, null (not zero)
unrealized gain/loss and percentage, a null latest price date, and no error is
recorded. -/
theorem C5_no_price (env : Env) (t : PTree) (errs : List String) (node : NodeIn)
    (hb : node.balanceKeys ≠ []) (hcur : node.costCurrency = env.operating_currency)
    (hnp : node.latestPrice = none ∨ ∃ q, node.latestPrice = some (none, q)) :
    ∃ t2, processNode env (t, errs) node = some (t2, errs) ∧
      accountAt t2 (asset_class_of env (node_commodity node))
        (asset_subclass_of env (node_commodity node)) node.name =
        some { balance_market_value := node.costNumber, income_gain_loss := none,
               gain_loss_percentage := none, latest_price_date := none } := by
  obtain ⟨c0, hc0, s0, hs0⟩ := ensure_exists t
    (asset_class_of env (node_commodity node))
    (asset_subclass_of env (node_commodity node))
  refine ⟨accumulate (insertAccount (ensureSubclass (ensureClass t
      (asset_class_of env (node_commodity node)))
      (asset_class_of env (node_commodity node))
      (asset_subclass_of env (node_commodity node)))
      (asset_class_of env (node_commodity node))
      (asset_subclass_of env (node_commodity node)) node.name
      { balance_market_value := node.costNumber, income_gain_loss := none,
        gain_loss_percentage := none, latest_price_date := none })
      (asset_class_of env (node_commodity node))
      (asset_subclass_of env (node_commodity node)) node.costNumber, ?_, ?_⟩
  · unfold processNode
    rw [if_neg hb]
    rcases hnp with hnp | ⟨q, hnp⟩ <;> simp [dlookup, hcur, hnp]
  · rw [accountAt_accumulate]
    exact accountAt_insertAccount_self _ _ _ _ _ c0 s0 hc0 hs0

/-- C5 (witness): a priceless USD-cost account valued at its cost basis. -/
theorem C5_no_price_witness :
    ∃ t2, processNode
        { operating_currency := "USD", commodity_dict := [], rmatch := fun _ _ => true,
          open_entries := [], tree := [] }
        ({ portfolio_total := 0, asset_classes := [] }, [])
        ⟨"Assets:X", ["USD"], "USD", 5, none, 0⟩ = some (t2, []) ∧
      accountAt t2 "noclass" "nosubclass" "Assets:X" =
        some { balance_market_value := 5, income_gain_loss := none,
               gain_loss_percentage := none, latest_price_date := none } :=
  C5_no_price _ _ [] _ (by decide) rfl (Or.inl rfl)

/-- C6: for an account with cost basis 0 in the operating currency and no known
latest price, the per-account computation completes without raising a division
error (the gain/loss percentage division is never executed on that path). -/
theorem C6_zero_cost_no_price (env : Env) (st : PTree × List String) (node : NodeIn)
    (hcur : node.costCurrency = env.operating_currency)
    (hzero : node.costNumber = 0)
    (hnp : node.latestPrice = none ∨ ∃ q, node.latestPrice = some (none, q)) :
    (processNode env st node).isSome = true := by
  by_cases hb : node.balanceKeys = []
  · unfold processNode
    rw [if_pos hb]
    rfl
  · unfold processNode
    rw [if_neg hb]
    rcases hnp with hnp | ⟨q, hnp⟩ <;> simp [dlookup, hcur, hnp]

/-- C6 (witness): zero cost basis and no price completes. -/
theorem C6_zero_cost_no_price_witness :
    (processNode
      { operating_currency := "USD", commodity_dict := [], rmatch := fun _ _ => true,
        open_entries := [], tree := [] }
      ({ portfolio_total := 0, asset_classes := [] }, [])
      ⟨"Assets:Z", ["USD"], "USD", 0, none, 0⟩).isSome = true :=
  C6_zero_cost_no_price _ _ _ rfl rfl (Or.inl rfl)

/-! ### C3: the allocation formulas -/

/-- C3 (counterexample): a run with a zero-value class next to a valued class
yields allocation 0 with a non-zero portfolio total, refuting "the computed
allocation percentage is 0 exactly when the corresponding ancestor total is 0". -/
theorem C3_allocation_counterexample :
    ((_portfolio_data
        { operating_currency := "USD",
          commodity_dict := [("ACOM", ⟨some "a", none⟩), ("BCOM", ⟨some "b", some "bb"⟩)],
          rmatch := fun _ _ => true, open_entries := [], tree := [] }
        [⟨"Assets:A", ["ACOM"], "USD", 0, none, 0⟩,
         ⟨"Assets:B", ["BCOM"], "USD", 100, none, 0⟩]).map
        (fun p => p.1.portfolio_total) = some 100) ∧
    ((_portfolio_data
        { operating_currency := "USD",
          commodity_dict := [("ACOM", ⟨some "a", none⟩), ("BCOM", ⟨some "b", some "bb"⟩)],
          rmatch := fun _ _ => true, open_entries := [], tree := [] }
        [⟨"Assets:A", ["ACOM"], "USD", 0, none, 0⟩,
         ⟨"Assets:B", ["BCOM"], "USD", 100, none, 0⟩]).map
        (fun p => (dlookup p.1.asset_classes "a").map
          (fun c => c.portfolio_allocation)) = some (some 0)) ∧
    (100 : ℚ) ≠ 0 := by
  refine ⟨?_, ?_, by norm_num⟩ <;>
  · simp [_portfolio_data, buildLoop, processNode, node_commodity, asset_class_of,
      asset_subclass_of, _asset_info, ensureClass, ensureSubclass, insertAccount, accumulate,
      containsKey, dlookup, dset, modifyAt, allocPass, pyRound2, rne]

/-- C3 (amended): each of the six computed allocations is 0 whenever the
corresponding ancestor total is 0 (the guard is applied independently at every
level), and otherwise equals round(child / ancestor * 100, 2) — so an
allocation can be 0 even under a non-zero ancestor total, for a zero child or
for a ratio small enough to round to 0. -/
theorem C3_allocations (env : Env) (nodes : List NodeIn) (out : PTree)
    (errs : List String) (h : _portfolio_data env nodes = some (out, errs)) :
    ∀ ce ∈ out.asset_classes,
      ce.2.portfolio_allocation = pct_spec ce.2.asset_class_total out.portfolio_total ∧
      ∀ se ∈ ce.2.asset_subclasses,
        se.2.portfolio_allocation = pct_spec se.2.asset_subclass_total out.portfolio_total ∧
        se.2.asset_class_allocation = pct_spec se.2.asset_subclass_total ce.2.asset_class_total ∧
        ∀ ae ∈ se.2.accounts,
          ae.2.portfolio_allocation = pct_spec ae.2.balance_market_value out.portfolio_total ∧
          ae.2.asset_class_allocation = pct_spec ae.2.balance_market_value ce.2.asset_class_total ∧
          ae.2.asset_subclass_allocation =
            pct_spec ae.2.balance_market_value se.2.asset_subclass_total := by
  unfold _portfolio_data at h
  cases hb : buildLoop env nodes ({ portfolio_total := 0, asset_classes := [] }, []) with
  | none => rw [hb] at h; exact absurd h (by simp)
  | some st =>
    rw [hb] at h
    obtain ⟨t0, errs0⟩ := st
    have hh := Option.some.inj h
    rw [Prod.ext_iff] at hh
    obtain ⟨he1, he2⟩ := hh
    subst he1
    intro ce hce
    unfold allocPass at hce
    simp only [List.mem_map] at hce
    obtain ⟨e, he, rfl⟩ := hce
    refine ⟨rfl, ?_⟩
    intro se hse
    simp only [List.mem_map] at hse
    obtain ⟨e2, he2m, rfl⟩ := hse
    refine ⟨rfl, rfl, ?_⟩
    intro ae hae
    simp only [List.mem_map] at hae
    obtain ⟨e3, he3, rfl⟩ := hae
    exact ⟨rfl, rfl, rfl⟩

/-- C3 (witness): the amended theorem instantiated on a concrete run. -/
theorem C3_allocations_witness :
    ∃ out errs, _portfolio_data
        { operating_currency := "USD", commodity_dict := [], rmatch := fun _ _ => true,
          open_entries := [], tree := [] } [] = some (out, errs) ∧
      ∀ ce ∈ out.asset_classes,
        ce.2.portfolio_allocation = pct_spec ce.2.asset_class_total out.portfolio_total ∧
        ∀ se ∈ ce.2.asset_subclasses,
          se.2.portfolio_allocation = pct_spec se.2.asset_subclass_total out.portfolio_total ∧
          se.2.asset_class_allocation =
            pct_spec se.2.asset_subclass_total ce.2.asset_class_total ∧
          ∀ ae ∈ se.2.accounts,
            ae.2.portfolio_allocation = pct_spec ae.2.balance_market_value out.portfolio_total ∧
            ae.2.asset_class_allocation = pct_spec ae.2.balance_market_value ce.2.asset_class_total ∧
            ae.2.asset_subclass_allocation =
              pct_spec ae.2.balance_market_value se.2.asset_subclass_total :=
  ⟨allocPass { portfolio_total := 0, asset_classes := [] }, [], rfl,
    C3_allocations
      { operating_currency := "USD", commodity_dict := [], rmatch := fun _ _ => true,
        open_entries := [], tree := [] } []
      (allocPass { portfolio_total := 0, asset_classes := [] }) [] rfl⟩

/-! ### C1: span bookkeeping of the flattening pass -/

theorem wrapScalars_lookup (pre : List Col) : ∀ (row row0 : List (String × Val)),
    wrapScalars pre row = some row0 → ∀ k,
      dlookup row0 k = dlookup row k ∨ ∃ w, dlookup row0 k = some (Val.cell w 1) := by
  induction pre with
  | nil =>
    intro row row0 h k
    obtain rfl : row = row0 := Option.some.inj h
    exact Or.inl rfl
  | cons c t ih =>
    intro row row0 h k
    unfold wrapScalars at h
    cases hl : dlookup row c.name with
    | none => rw [hl] at h; exact absurd h (by simp)
    | some v =>
      rw [hl] at h
      rcases ih _ _ h k with h2 | h2
      · by_cases hk : c.name = k
        · subst hk
          rw [dlookup_dset_eq] at h2
          exact Or.inr ⟨v, h2⟩
        · rw [dlookup_dset_ne _ _ _ _ hk] at h2
          exact Or.inl h2
      · exact Or.inr h2

theorem backprop_pres_cell (t : List Col) : ∀ (row r2 : List (String × Val)) (n : Nat)
    (k : String), backprop t row n = some r2 →
      (∃ v, dlookup row k = some (Val.cell v n)) →
      ∃ v, dlookup r2 k = some (Val.cell v n) := by
  induction t with
  | nil =>
    intro row r2 n k h hv
    obtain rfl : row = r2 := Option.some.inj h
    exact hv
  | cons c t ih =>
    intro row r2 n k h hv
    unfold backprop at h
    cases hl : dlookup row c.name with
    | none => rw [hl] at h; exact absurd h (by simp)
    | some val =>
      rw [hl] at h
      cases val with
      | cell v m =>
        refine ih _ _ _ _ h ?_
        by_cases hk : c.name = k
        · subst hk
          exact ⟨v, dlookup_dset_eq _ _ _⟩
        · rw [dlookup_dset_ne _ _ _ _ hk]
          exact hv
      | num q => exact absurd h (by simp)
      | null => exact absurd h (by simp)
      | date d => exact absurd h (by simp)
      | dict l => exact absurd h (by simp)

theorem backprop_sets (pre : List Col) : ∀ (row r2 : List (String × Val)) (n : Nat),
    backprop pre row n = some r2 →
      ∀ c ∈ pre, ∃ v, dlookup r2 c.name = some (Val.cell v n) := by
  induction pre with
  | nil => intro row r2 n h c hc; exact absurd hc (List.not_mem_nil c)
  | cons c0 t ih =>
    intro row r2 n h c hc
    unfold backprop at h
    cases hl : dlookup row c0.name with
    | none => rw [hl] at h; exact absurd h (by simp)
    | some val =>
      rw [hl] at h
      cases val with
      | cell v m =>
        rcases List.mem_cons.mp hc with rfl | hc2
        · refine backprop_pres_cell t _ _ _ _ h ⟨v, ?_⟩
          exact dlookup_dset_eq _ _ _
        · exact ih _ _ _ h c hc2
      | num q => exact absurd h (by simp)
      | null => exact absurd h (by simp)
      | date d => exact absurd h (by simp)
      | dict l => exact absurd h (by simp)

theorem backprop_pres_dict (t : List Col) : ∀ (row r2 : List (String × Val)) (n : Nat)
    (k : String) (sub : List (String × Val)), backprop t row n = some r2 →
      dlookup row k = some (Val.dict sub) → dlookup r2 k = some (Val.dict sub) := by
  induction t with
  | nil =>
    intro row r2 n k sub h hd
    obtain rfl : row = r2 := Option.some.inj h
    exact hd
  | cons c t ih =>
    intro row r2 n k sub h hd
    unfold backprop at h
    cases hl : dlookup row c.name with
    | none => rw [hl] at h; exact absurd h (by simp)
    | some val =>
      rw [hl] at h
      cases val with
      | cell v m =>
        refine ih _ _ _ _ _ h ?_
        by_cases hk : c.name = k
        · subst hk
          rw [hl] at hd
          exact absurd (Option.some.inj hd) (by simp)
        · rw [dlookup_dset_ne _ _ _ _ hk]
          exact hd
      | num q => exact absurd h (by simp)
      | null => exact absurd h (by simp)
      | date d => exact absurd h (by simp)
      | dict l => exact absurd h (by simp)

theorem cellSpanSum_dictOfInner (l : List (String × Val × Nat)) :
    cellSpanSum (l.map (fun e => (e.1, Val.cell e.2.1 e.2.2))) = spanSum l := by
  induction l with
  | nil => simp [cellSpanSum, spanSum]
  | cons e t ih =>
    simp only [List.map_cons, cellSpanSum, spanSum, List.sum_cons] at ih ⊢
    omega

theorem flattenDict_nil_spans : ∀ (rows : List (String × Val)) res,
    flattenDict [] rows = some res → flattenSpansOk [] rows res := by
  intro rows
  induction rows with
  | nil =>
    intro res h
    simp only [flattenDict] at h
    obtain rfl := Option.some.inj h
    refine ⟨by simp [spanSum, rowLeavesList], List.Forall₂.nil, by simp⟩
  | cons e t ih =>
    intro res h
    obtain ⟨k, v⟩ := e
    simp only [flattenDict] at h
    cases hrest : flattenDict [] t with
    | none => rw [hrest] at h; simp at h
    | some rest =>
      rw [hrest] at h
      obtain rfl := Option.some.inj h
      obtain ⟨h1, h2, h3⟩ := ih rest hrest
      refine ⟨?_, ?_, ?_⟩
      · simp only [spanSum, List.map_cons, List.sum_cons] at h1 ⊢
        rw [rowLeavesList, rowLeavesV]
        omega
      · exact List.Forall₂.cons ⟨rfl, by rw [rowLeavesV]⟩ h2
      · intro o ho
        rcases List.mem_cons.mp ho with rfl | ho2
        · simp [backOk, splitCols]
        · exact h3 o ho2

theorem rowLeavesV_split_none : ∀ (cs pre : List Col),
    splitCols cs = (pre, none) → ∀ v, rowLeavesV cs v = 1 := by
  intro cs
  induction cs with
  | nil =>
    intro pre h v
    rw [rowLeavesV]
  | cons c t ih =>
    intro pre h v
    cases hg : isGroupInner c with
    | true =>
      simp only [splitCols, hg, if_true] at h
      exact absurd (congrArg Prod.snd h) (by simp)
    | false =>
      simp only [splitCols, hg, Bool.false_eq_true, if_false] at h
      cases hsp : splitCols t with
      | mk p r =>
        rw [hsp] at h
        have h2 := congrArg Prod.snd h
        simp only at h2
        rw [rowLeavesV]
        simp only [hg, Bool.false_eq_true, if_false]
        exact ih p (by rw [hsp, h2]) v

theorem rowLeavesV_split_group : ∀ (cs pre : List Col) (g : Col) (rest : List Col),
    splitCols cs = (pre, some (g, rest)) → ∀ row,
      rowLeavesV cs (Val.dict row) =
        (match dlookup row g.name with
         | some (Val.dict sub) => rowLeavesList rest sub
         | _ => 1) := by
  intro cs
  induction cs with
  | nil =>
    intro pre g rest h
    simp [splitCols] at h
  | cons c t ih =>
    intro pre g rest h row
    cases hg : isGroupInner c with
    | true =>
      simp only [splitCols, hg, if_true] at h
      have h2 := congrArg Prod.snd h
      simp only [Option.some.injEq, Prod.mk.injEq] at h2
      obtain ⟨hgc, hrest⟩ := h2
      subst hgc
      subst hrest
      rw [rowLeavesV]
      simp only [hg, if_true]
      rw [rowGroupLeaves]
    | false =>
      simp only [splitCols, hg, Bool.false_eq_true, if_false] at h
      cases hsp : splitCols t with
      | mk p r =>
        rw [hsp] at h
        have h2 := congrArg Prod.snd h
        simp only at h2
        rw [rowLeavesV]
        simp only [hg, Bool.false_eq_true, if_false]
        exact ih p g rest (by rw [hsp, h2]) row

set_option maxHeartbeats 1000000 in
theorem flattenDict_spans_aux (N : Nat) : ∀ (cs : List Col), cs.length ≤ N →
    ∀ (rows : List (String × Val)) (res : List (String × Val × Nat)),
      flattenDict cs rows = some res → flattenSpansOk cs rows res := by
  induction N with
  | zero =>
    intro cs hcs
    obtain rfl : cs = [] := List.eq_nil_of_length_eq_zero (Nat.le_zero.mp hcs)
    exact flattenDict_nil_spans
  | succ N ihN =>
    intro cs hcs
    cases cs with
    | nil => exact flattenDict_nil_spans
    | cons c2 cs2 =>
      intro rows
      induction rows with
      | nil =>
        intro res h
        simp only [flattenDict] at h
        obtain rfl := Option.some.inj h
        exact ⟨by simp [spanSum, rowLeavesList], List.Forall₂.nil, by simp⟩
      | cons e t ihrows =>
        intro res h
        obtain ⟨k, v⟩ := e
        rw [flattenDict.eq_def] at h
        dsimp only at h
        cases v with
        | num q => exact absurd h (by simp)
        | null => exact absurd h (by simp)
        | date d => exact absurd h (by simp)
        | cell w m => exact absurd h (by simp)
        | dict row =>
          split at h
          · rename_i r n heq
            cases hrest : flattenDict (c2 :: cs2) t with
            | none => rw [hrest] at h; exact absurd h (by simp)
            | some rest2 =>
              rw [hrest] at h
              obtain rfl := Option.some.inj h
              obtain ⟨h1, h2, h3⟩ := ihrows rest2 hrest
              split at heq
              · rename_i hnil
                exact absurd hnil (by simp)
              · rename_i c2x cs2x rowx hcons hdict
                injection hcons with e1 e2
                injection hdict with e3
                subst e1
                subst e2
                subst e3
                split at heq
                · rename_i pre hsp
                  cases hw : wrapScalars pre row with
                  | none => rw [hw] at heq; exact absurd heq (by simp)
                  | some r0 =>
                    rw [hw] at heq
                    have hinj := Option.some.inj heq
                    have e4 : Val.dict r0 = r := congrArg Prod.fst hinj
                    have e5 : (1 : Nat) = n := congrArg Prod.snd hinj
                    subst e4
                    subst e5
                    refine ⟨?_, ?_, ?_⟩
                    · simp only [spanSum, List.map_cons, List.sum_cons] at h1 ⊢
                      rw [rowLeavesList]
                      rw [show rowLeavesV (c2 :: cs2) (k, Val.dict row).2 = 1 from
                        rowLeavesV_split_none _ _ hsp _]
                      omega
                    · exact List.Forall₂.cons
                        ⟨rfl, (rowLeavesV_split_none _ _ hsp _).symm⟩ h2
                    · intro o ho
                      rcases List.mem_cons.mp ho with rfl | ho2
                      · simp only [backOk, hsp]
                      · exact h3 o ho2
                · rename_i pre g rest hsp
                  cases hw : wrapScalars pre row with
                  | none => rw [hw] at heq; exact absurd heq (by simp)
                  | some row0 =>
                    rw [hw] at heq
                    dsimp only at heq
                    cases hlu : dlookup row0 g.name with
                    | none => rw [hlu] at heq; exact absurd heq (by simp)
                    | some gv =>
                      rw [hlu] at heq
                      cases gv with
                      | num q => exact absurd heq (by simp)
                      | null => exact absurd heq (by simp)
                      | date d => exact absurd heq (by simp)
                      | cell w m => exact absurd heq (by simp)
                      | dict sub =>
                        dsimp only at heq
                        cases hin : flattenDict rest sub with
                        | none => rw [hin] at heq; exact absurd heq (by simp)
                        | some inner =>
                          rw [hin] at heq
                          dsimp only at heq
                          cases hbp : backprop pre (dset row0 g.name (dictOfInner inner))
                              (spanSum inner) with
                          | none => rw [hbp] at heq; exact absurd heq (by simp)
                          | some row2 =>
                            rw [hbp] at heq
                            dsimp only at heq
                            have hinj := Option.some.inj heq
                            have e4 : Val.dict row2 = r := congrArg Prod.fst hinj
                            have e5 : spanSum inner = n := congrArg Prod.snd hinj
                            subst e4
                            subst e5
                            have hlen : rest.length ≤ N := by
                              have := splitCols_rest_lt _ _ _ _ hsp
                              simp only [List.length_cons] at this hcs
                              omega
                            obtain ⟨g1, g2, g3⟩ := ihN rest hlen sub inner hin
                            have hlur : dlookup row g.name = some (Val.dict sub) := by
                              rcases wrapScalars_lookup pre row row0 hw g.name with hh | ⟨w, hh⟩
                              · exact hh.symm.trans hlu
                              · rw [hlu] at hh
                                exact absurd (Option.some.inj hh) (by simp)
                            have hrl : rowLeavesV (c2 :: cs2) (Val.dict row) = spanSum inner := by
                              rw [rowLeavesV_split_group _ _ _ _ hsp row, hlur]
                              exact g1.symm
                            refine ⟨?_, ?_, ?_⟩
                            · simp only [spanSum, List.map_cons, List.sum_cons] at h1 ⊢
                              rw [rowLeavesList]
                              rw [show rowLeavesV (c2 :: cs2) (k, Val.dict row).2 =
                                (inner.map (fun e => e.2.2)).sum from hrl]
                              omega
                            · exact List.Forall₂.cons ⟨rfl, hrl.symm⟩ h2
                            · intro o ho
                              rcases List.mem_cons.mp ho with rfl | ho2
                              · simp only [backOk, hsp]
                                refine ⟨row2, rfl, backprop_sets pre _ _ _ hbp, ?_⟩
                                refine ⟨inner.map (fun e => (e.1, Val.cell e.2.1 e.2.2)), ?_,
                                  cellSpanSum_dictOfInner inner⟩
                                refine backprop_pres_dict pre _ _ _ _ _ hbp ?_
                                rw [dlookup_dset_eq]
                                rfl
                              · exact h3 o ho2
              · rename_i hx
                exact absurd rfl (hx row)
          · exact absurd h (by simp)

/-- **C1.** In the recursive flattening pass, whenever a group column is reached,
every scalar column emitted before it carries the total span (the sum of the
recursed span counts over the keys of the group), and the sum of the span counts
of the group's direct children equals the total leaf-row count of that group's
subtree; each key's own span is its subtree's leaf-row count. -/
theorem C1_flatten_spans (cs : List Col) (rows : List (String × Val))
    (res : List (String × Val × Nat)) (h : flattenDict cs rows = some res) :
    flattenSpansOk cs rows res :=
  flattenDict_spans_aux cs.length cs le_rfl rows res h

theorem C1_flatten_spans_witness :
    flattenDict
      [⟨"share", ColKind.decimal⟩, ⟨"children", ColKind.pydict⟩, ⟨"leaf", ColKind.decimal⟩]
      [("A", Val.dict [("share", Val.num 1), ("children", Val.dict
        [("x", Val.dict [("leaf", Val.num 2)]), ("y", Val.dict [("leaf", Val.num 3)])])])]
      = some [("A", Val.dict [("share", Val.cell (Val.num 1) 2),
          ("children", Val.dict
            [("x", Val.cell (Val.dict [("leaf", Val.cell (Val.num 2) 1)]) 1),
             ("y", Val.cell (Val.dict [("leaf", Val.cell (Val.num 3) 1)]) 1)])], 2)] ∧
    flattenSpansOk
      [⟨"share", ColKind.decimal⟩, ⟨"children", ColKind.pydict⟩, ⟨"leaf", ColKind.decimal⟩]
      [("A", Val.dict [("share", Val.num 1), ("children", Val.dict
        [("x", Val.dict [("leaf", Val.num 2)]), ("y", Val.dict [("leaf", Val.num 3)])])])]
      [("A", Val.dict [("share", Val.cell (Val.num 1) 2),
          ("children", Val.dict
            [("x", Val.cell (Val.dict [("leaf", Val.cell (Val.num 2) 1)]) 1),
             ("y", Val.cell (Val.dict [("leaf", Val.cell (Val.num 3) 1)]) 1)])], 2)] := by
  have h : flattenDict
      [⟨"share", ColKind.decimal⟩, ⟨"children", ColKind.pydict⟩, ⟨"leaf", ColKind.decimal⟩]
      [("A", Val.dict [("share", Val.num 1), ("children", Val.dict
        [("x", Val.dict [("leaf", Val.num 2)]), ("y", Val.dict [("leaf", Val.num 3)])])])]
      = some [("A", Val.dict [("share", Val.cell (Val.num 1) 2),
          ("children", Val.dict
            [("x", Val.cell (Val.dict [("leaf", Val.cell (Val.num 2) 1)]) 1),
             ("y", Val.cell (Val.dict [("leaf", Val.cell (Val.num 3) 1)]) 1)])], 2)] := by
    simp [flattenDict, wrapScalars, splitCols, isGroupInner, dlookup, dset, backprop,
      dictOfInner, spanSum]
  exact ⟨h, C1_flatten_spans _ _ _ h⟩

/-! ### C7: flattening a single-account tree -/

theorem allSpansOneV_optNumVal (o : Option ℚ) : allSpansOneV (optNumVal o) = true := by
  cases o <;> rfl

theorem allSpansOneV_optDateVal (o : Option Nat) : allSpansOneV (optDateVal o) = true := by
  cases o <;> rfl

set_option maxHeartbeats 2000000 in
theorem flattenOneAccount (T : PTree) (ac sc an : String) (C : ClassNode)
    (S : SubclassNode) (A : AccountData) (flat : List (String × Val))
    (hc : T.asset_classes = [(ac, C)]) (hs : C.asset_subclasses = [(sc, S)])
    (ha : S.accounts = [(an, A)])
    (hfl : insert_rowspans (ptreeVal (allocPass T)) types true = some flat) :
    allSpansOneL flat = true := by
  simp [insert_rowspans, insertRowspansStart, ptreeVal, allocPass, hc, hs, ha, types,
    splitColsTop, isGroupTop, splitCols, isGroupInner, wrapTop, wrapScalars,
    backprop, dlookup, dset, dictOfInner, spanSum, flattenDict,
    classVal, subclassVal, accountVal] at hfl
  subst hfl
  simp [allSpansOneL, allSpansOneV, allSpansOneV_optNumVal, allSpansOneV_optDateVal]

set_option maxHeartbeats 2000000 in
/-- **C7.** Flattening the portfolio tree built from a single account (one with a
non-empty balance whose cost currency is the operating currency, so that the
account actually enters the tree) yields a structure in which every rowspan
annotation — on scalar columns and on group columns alike — equals 1, the total
leaf-row count being one. -/
theorem C7_single_account_spans (env : Env) (node : NodeIn) (t : PTree)
    (errs : List String) (flat : List (String × Val))
    (hbk : node.balanceKeys ≠ [])
    (hcc : node.costCurrency = env.operating_currency)
    (hpd : _portfolio_data env [node] = some (t, errs))
    (hfl : insert_rowspans (ptreeVal t) types true = some flat) :
    allSpansOneL flat = true := by
  unfold _portfolio_data buildLoop at hpd
  unfold processNode at hpd
  rw [if_neg hbk, hcc] at hpd
  simp only [dlookup, if_pos rfl] at hpd
  cases hlp : node.latestPrice with
  | none =>
    rw [hlp] at hpd
    dsimp only at hpd
    simp only [buildLoop] at hpd
    simp [ensureClass, ensureSubclass, insertAccount, accumulate, containsKey,
      dlookup, dset, modifyAt, apply_ite] at hpd
    obtain ⟨ht, -⟩ := hpd
    subst ht
    exact flattenOneAccount _ _ _ _ _ _ _ _ rfl rfl rfl hfl
  | some pr =>
    obtain ⟨od, p⟩ := pr
    cases od with
    | none =>
      rw [hlp] at hpd
      dsimp only at hpd
      simp only [buildLoop] at hpd
      simp [ensureClass, ensureSubclass, insertAccount, accumulate, containsKey,
        dlookup, dset, modifyAt, apply_ite] at hpd
      obtain ⟨ht, -⟩ := hpd
      subst ht
      exact flattenOneAccount _ _ _ _ _ _ _ _ rfl rfl rfl hfl
    | some lpdate =>
      rw [hlp] at hpd
      dsimp only at hpd
      by_cases hc0 : node.costNumber = 0
      · rw [_asset_info] at hpd
        simp only [hc0, if_pos rfl] at hpd
        simp [_asset_info, hc0] at hpd
      · rw [_asset_info] at hpd
        simp only [if_neg hc0] at hpd
        simp only [buildLoop] at hpd
        simp [ensureClass, ensureSubclass, insertAccount, accumulate, containsKey,
          dlookup, dset, modifyAt, apply_ite] at hpd
        obtain ⟨ht, -⟩ := hpd
        subst ht
        exact flattenOneAccount _ _ _ _ _ _ _ _ rfl rfl rfl hfl

theorem C7_single_account_spans_witness :
    _portfolio_data
      { operating_currency := "USD", commodity_dict := [], rmatch := fun _ _ => true,
        open_entries := [], tree := [] }
      [{ name := "Assets:Cash", balanceKeys := ["USD"], costCurrency := "USD",
         costNumber := 5, latestPrice := none, marketValue := 5 }] =
      some ({ portfolio_total := 5,
              asset_classes := [("noclass",
                { portfolio_allocation := 100, asset_class_total := 5,
                  asset_subclasses := [("nosubclass",
                    { asset_subclass_total := 5, portfolio_allocation := 100,
                      asset_subclass_asset_class_allocation := 0,
                      accounts := [("Assets:Cash",
                        { balance_market_value := 5, income_gain_loss := none,
                          gain_loss_percentage := none, latest_price_date := none,
                          portfolio_allocation := 100, asset_class_allocation := 100,
                          asset_subclass_allocation := 100 })],
                      asset_class_allocation := 100 })] })] }, []) ∧
    insert_rowspans (ptreeVal
      { portfolio_total := 5,
        asset_classes := [("noclass",
          { portfolio_allocation := 100, asset_class_total := 5,
            asset_subclasses := [("nosubclass",
              { asset_subclass_total := 5, portfolio_allocation := 100,
                asset_subclass_asset_class_allocation := 0,
                accounts := [("Assets:Cash",
                  { balance_market_value := 5, income_gain_loss := none,
                    gain_loss_percentage := none, latest_price_date := none,
                    portfolio_allocation := 100, asset_class_allocation := 100,
                    asset_subclass_allocation := 100 })],
                asset_class_allocation := 100 })] })] }) types true =
      some [("portfolio_total", Val.cell (Val.num 5) 1),
        ("asset_classes", Val.dict
          [("noclass", Val.cell (Val.dict
            [("portfolio_allocation", Val.cell (Val.num 100) 1),
             ("asset_class_total", Val.cell (Val.num 5) 1),
             ("asset_subclasses", Val.dict
               [("nosubclass", Val.cell (Val.dict
                 [("asset_subclass_total", Val.cell (Val.num 5) 1),
                  ("portfolio_allocation", Val.num 100),
                  ("asset_subclass_asset_class_allocation", Val.num 0),
                  ("accounts", Val.dict
                    [("Assets:Cash", Val.cell (Val.dict
                      [("balance_market_value", Val.cell (Val.num 5) 1),
                       ("income_gain_loss", Val.cell Val.null 1),
                       ("gain_loss_percentage", Val.cell Val.null 1),
                       ("latest_price_date", Val.cell Val.null 1),
                       ("portfolio_allocation", Val.num 100),
                       ("asset_class_allocation", Val.num 100),
                       ("asset_subclass_allocation", Val.cell (Val.num 100) 1)]) 1)]),
                  ("asset_class_allocation", Val.cell (Val.num 100) 1)]) 1)])]) 1)])] ∧
    allSpansOneL
      [("portfolio_total", Val.cell (Val.num 5) 1),
        ("asset_classes", Val.dict
          [("noclass", Val.cell (Val.dict
            [("portfolio_allocation", Val.cell (Val.num 100) 1),
             ("asset_class_total", Val.cell (Val.num 5) 1),
             ("asset_subclasses", Val.dict
               [("nosubclass", Val.cell (Val.dict
                 [("asset_subclass_total", Val.cell (Val.num 5) 1),
                  ("portfolio_allocation", Val.num 100),
                  ("asset_subclass_asset_class_allocation", Val.num 0),
                  ("accounts", Val.dict
                    [("Assets:Cash", Val.cell (Val.dict
                      [("balance_market_value", Val.cell (Val.num 5) 1),
                       ("income_gain_loss", Val.cell Val.null 1),
                       ("gain_loss_percentage", Val.cell Val.null 1),
                       ("latest_price_date", Val.cell Val.null 1),
                       ("portfolio_allocation", Val.num 100),
                       ("asset_class_allocation", Val.num 100),
                       ("asset_subclass_allocation", Val.cell (Val.num 100) 1)]) 1)]),
                  ("asset_class_allocation", Val.cell (Val.num 100) 1)]) 1)])]) 1)])] = true := by
  have h1 : _portfolio_data
      { operating_currency := "USD", commodity_dict := [], rmatch := fun _ _ => true,
        open_entries := [], tree := [] }
      [{ name := "Assets:Cash", balanceKeys := ["USD"], costCurrency := "USD",
         costNumber := 5, latestPrice := none, marketValue := 5 }] =
      some ({ portfolio_total := 5,
              asset_classes := [("noclass",
                { portfolio_allocation := 100, asset_class_total := 5,
                  asset_subclasses := [("nosubclass",
                    { asset_subclass_total := 5, portfolio_allocation := 100,
                      asset_subclass_asset_class_allocation := 0,
                      accounts := [("Assets:Cash",
                        { balance_market_value := 5, income_gain_loss := none,
                          gain_loss_percentage := none, latest_price_date := none,
                          portfolio_allocation := 100, asset_class_allocation := 100,
                          asset_subclass_allocation := 100 })],
                      asset_class_allocation := 100 })] })] }, []) := by
    simp [_portfolio_data, buildLoop, processNode, node_commodity, asset_class_of,
      asset_subclass_of, ensureClass, ensureSubclass, insertAccount, accumulate,
      containsKey, dlookup, dset, modifyAt, allocPass, _asset_info]
    norm_num [pyRound2, rne]
  have h2 : insert_rowspans (ptreeVal
      { portfolio_total := 5,
        asset_classes := [("noclass",
          { portfolio_allocation := 100, asset_class_total := 5,
            asset_subclasses := [("nosubclass",
              { asset_subclass_total := 5, portfolio_allocation := 100,
                asset_subclass_asset_class_allocation := 0,
                accounts := [("Assets:Cash",
                  { balance_market_value := 5, income_gain_loss := none,
                    gain_loss_percentage := none, latest_price_date := none,
                    portfolio_allocation := 100, asset_class_allocation := 100,
                    asset_subclass_allocation := 100 })],
                asset_class_allocation := 100 })] })] }) types true =
      some [("portfolio_total", Val.cell (Val.num 5) 1),
        ("asset_classes", Val.dict
          [("noclass", Val.cell (Val.dict
            [("portfolio_allocation", Val.cell (Val.num 100) 1),
             ("asset_class_total", Val.cell (Val.num 5) 1),
             ("asset_subclasses", Val.dict
               [("nosubclass", Val.cell (Val.dict
                 [("asset_subclass_total", Val.cell (Val.num 5) 1),
                  ("portfolio_allocation", Val.num 100),
                  ("asset_subclass_asset_class_allocation", Val.num 0),
                  ("accounts", Val.dict
                    [("Assets:Cash", Val.cell (Val.dict
                      [("balance_market_value", Val.cell (Val.num 5) 1),
                       ("income_gain_loss", Val.cell Val.null 1),
                       ("gain_loss_percentage", Val.cell Val.null 1),
                       ("latest_price_date", Val.cell Val.null 1),
                       ("portfolio_allocation", Val.num 100),
                       ("asset_class_allocation", Val.num 100),
                       ("asset_subclass_allocation", Val.cell (Val.num 100) 1)]) 1)]),
                  ("asset_class_allocation", Val.cell (Val.num 100) 1)]) 1)])]) 1)])] := by
    simp [insert_rowspans, insertRowspansStart, ptreeVal, types,
      splitColsTop, isGroupTop, splitCols, isGroupInner, wrapTop, wrapScalars,
      backprop, dlookup, dset, dictOfInner, spanSum, flattenDict,
      classVal, subclassVal, accountVal, optNumVal, optDateVal]
  exact ⟨h1, h2, C7_single_account_spans _ _ _ _ _ (by simp) rfl h1 h2⟩

/-! ### C8: one failing view aborts the whole loop -/

theorem paLoop_invalid_stops (env : Env) (key : String) (rest : List COption) :
    ∀ (pre : List COption) (acc : List PortfolioView),
      paLoop env (pre ++ COption.invalid_option key :: rest) acc = paLoop env pre acc := by
  intro pre
  induction pre with
  | nil =>
    intro acc
    simp [paLoop, processOption]
  | cons o t ih =>
    intro acc
    simp only [List.cons_append, paLoop]
    cases processOption env o with
    | some v => exact ih (acc ++ [v])
    | none => rfl

/-- **C8.** (Amended.) A view whose configuration entry has an unrecognized
option key raises `FavaAPIError` inside the single `try` that wraps the whole
option loop, so the views computed before it are returned unchanged — but every
view configured after the failing one is dropped, never processed. -/
theorem C8_failed_view_drops_rest (env : Env) (pre : List COption) (key : String)
    (rest : List COption) :
    portfolio_accounts env (pre ++ COption.invalid_option key :: rest) =
      portfolio_accounts env pre := by
  unfold portfolio_accounts
  exact paLoop_invalid_stops env key rest pre []

/-- **C8 counterexample.** With an empty ledger, the configuration
`[invalid option, account name pattern]` returns no views at all, although the
account-name-pattern view on its own computes successfully — the failing view
drops the later, independent one, contradicting the claim. -/
theorem C8_counterexample :
    portfolio_accounts
      { operating_currency := "USD", commodity_dict := [], rmatch := fun _ _ => true,
        open_entries := [], tree := [] }
      [COption.invalid_option "opt", COption.account_name_pattern "assets"] = [] ∧
    portfolio_accounts
      { operating_currency := "USD", commodity_dict := [], rmatch := fun _ _ => true,
        open_entries := [], tree := [] }
      [COption.account_name_pattern "assets"] ≠ [] := by
  constructor
  · rfl
  · simp [portfolio_accounts, paLoop, processOption, selectLoop, lookupNodes,
      _portfolio_data, buildLoop, allocPass, insert_rowspans, insertRowspansStart,
      ptreeVal, types, splitColsTop, isGroupTop, wrapTop, dlookup, dset,
      flattenDict, dictOfInner, spanSum, backprop]

/-! ### C9: the flattening pass mutates its input -/

set_option maxHeartbeats 1000000 in
/-- **C9.** (Amended.) The flattening pass is **not** a pure transform of its
input: for every tree with at least one asset class, a successful
`insert_rowspans(..., True)` run leaves the input's nested class mapping
changed — the scalar columns of each class row have been overwritten in place
with `(value, {"rowspan": n})` placeholders through the aliased row objects —
so the post-state of the input differs from the input. -/
theorem C9_flatten_mutates (t : PTree) (u : List (String × Val))
    (hne : t.asset_classes ≠ [])
    (hpost : insertRowspansStartPost (ptreeVal t) types = some u) :
    u ≠ ptreeVal t := by
  obtain ⟨pt, cl⟩ := t
  cases cl with
  | nil => exact absurd rfl hne
  | cons e tc =>
    obtain ⟨k, c⟩ := e
    simp [insertRowspansStartPost, ptreeVal, types, splitColsTop, isGroupTop,
      wrapTop, dlookup, dset] at hpost
    split at hpost
    · rename_i inner hin
      split at hpost
      · rename_i row2 hbp
        obtain rfl := Option.some.inj hpost
        obtain ⟨hsum, hfa, hback⟩ :=
          flattenDict_spans_aux 11 _ (by simp) _ inner hin
        cases hfa with
        | cons hrel hfat =>
          rename_i o ot
          obtain ⟨hk, hn⟩ := hrel
          have hb := hback o (List.mem_cons_self o ot)
          simp [backOk, splitCols, isGroupInner] at hb
          obtain ⟨row, hrow, hpre, sub, hsub, hsubsum⟩ := hb
          intro hEq
          simp only [ptreeVal, stripSpans, List.map_cons, List.cons.injEq, Prod.mk.injEq,
            Val.dict.injEq, classVal] at hEq
          obtain ⟨-, ⟨-, hcv⟩, -⟩ := hEq.2.1
          rw [hrow] at hcv
          obtain rfl := Val.dict.inj hcv
          obtain ⟨v, hv⟩ := hpre.1
          simp [dlookup] at hv
      · exact absurd hpost (by simp)
    · exact absurd hpost (by simp)

theorem C9_flatten_mutates_witness :
    ({ portfolio_total := 7,
       asset_classes := [("stocks",
         { portfolio_allocation := 0, asset_class_total := 7,
           asset_subclasses := [] })] } : PTree).asset_classes ≠ [] ∧
    insertRowspansStartPost (ptreeVal
      { portfolio_total := 7,
        asset_classes := [("stocks",
          { portfolio_allocation := 0, asset_class_total := 7,
            asset_subclasses := [] })] }) types =
      some [("portfolio_total", Val.num 7),
        ("asset_classes", Val.dict
          [("stocks", Val.dict
            [("portfolio_allocation", Val.cell (Val.num 0) 0),
             ("asset_class_total", Val.cell (Val.num 7) 0),
             ("asset_subclasses", Val.dict [])])])] ∧
    [("portfolio_total", Val.num 7),
        ("asset_classes", Val.dict
          [("stocks", Val.dict
            [("portfolio_allocation", Val.cell (Val.num 0) 0),
             ("asset_class_total", Val.cell (Val.num 7) 0),
             ("asset_subclasses", Val.dict [])])])] ≠
      ptreeVal
        { portfolio_total := 7,
          asset_classes := [("stocks",
            { portfolio_allocation := 0, asset_class_total := 7,
              asset_subclasses := [] })] } := by
  have hp : insertRowspansStartPost (ptreeVal
      { portfolio_total := 7,
        asset_classes := [("stocks",
          { portfolio_allocation := 0, asset_class_total := 7,
            asset_subclasses := [] })] }) types =
      some [("portfolio_total", Val.num 7),
        ("asset_classes", Val.dict
          [("stocks", Val.dict
            [("portfolio_allocation", Val.cell (Val.num 0) 0),
             ("asset_class_total", Val.cell (Val.num 7) 0),
             ("asset_subclasses", Val.dict [])])])] := by
    simp [insertRowspansStartPost, ptreeVal, types, splitColsTop, isGroupTop,
      wrapTop, dlookup, dset, flattenDict, splitCols, isGroupInner, wrapScalars,
      backprop, dictOfInner, spanSum, stripSpans, classVal]
  exact ⟨by simp, hp, C9_flatten_mutates _ _ (by simp) hp⟩

/-- **C9 counterexample.** A one-class tree whose post-state after the `isStart`
flattening exists and is not the input: the class row's scalar columns now hold
`(value, {"rowspan": ...})` pairs, so flattening did not leave the input tree
unchanged. -/
theorem C9_counterexample :
    insertRowspansStartPost (ptreeVal
      { portfolio_total := 0,
        asset_classes := [("noclass",
          { portfolio_allocation := 0, asset_class_total := 0,
            asset_subclasses := [] })] }) types =
      some [("portfolio_total", Val.num 0),
        ("asset_classes", Val.dict
          [("noclass", Val.dict
            [("portfolio_allocation", Val.cell (Val.num 0) 0),
             ("asset_class_total", Val.cell (Val.num 0) 0),
             ("asset_subclasses", Val.dict [])])])] ∧
    [("portfolio_total", Val.num 0),
        ("asset_classes", Val.dict
          [("noclass", Val.dict
            [("portfolio_allocation", Val.cell (Val.num 0) 0),
             ("asset_class_total", Val.cell (Val.num 0) 0),
             ("asset_subclasses", Val.dict [])])])] ≠
      ptreeVal
        { portfolio_total := 0,
          asset_classes := [("noclass",
            { portfolio_allocation := 0, asset_class_total := 0,
              asset_subclasses := [] })] } := by
  constructor
  · simp [insertRowspansStartPost, ptreeVal, types, splitColsTop, isGroupTop,
      wrapTop, dlookup, dset, flattenDict, splitCols, isGroupInner, wrapScalars,
      backprop, dictOfInner, spanSum, stripSpans, classVal]
  · simp [ptreeVal, classVal]
